import Mathlib

/-!
# dryci server: pass-record store, credential check and batched flush

A shallow embedding of `dryci_server/db.go` (`AuthUser`, `RecordUsage`,
`QueryPassedTestHashes`, `PublishTestHashes`, `DbTxn`, `GenToken`), of
`backgroundHandler` from `dryci_server/main.go` and of
`batchedBackgroundWorker` from `dryci_server/utils.go`, followed by the
properties proved about them.

Conventions of the embedding:

* a Go `string` and a `[]byte` are lists of bytes, `len` is `List.length`;
* a Go function returning `(value, error)` returns a pair with an `Option`
  error, or an `Except` when the value is `nil` on every error path;
* the database connection is an explicit `Db` value; a function that writes
  returns the new `Db`;
* SQL statements are assumed to execute (no I/O failure of the engine); the
  errors modelled are the ones the Go code itself raises;
* the order in which `range` visits a Go map is not fixed by the language: the
  keys of the request map `tests` are given as a list in the order of the
  visit, and the visit of the in-memory set `nodeIds` is an arbitrary
  permutation supplied by `Runtime`.
-/

namespace Dryci

/-! ## Data model -/

/-- A Go `byte`. -/
abbrev Byte := Fin 256

/-- A Go `string` or `[]byte`: a sequence of bytes. -/
abbrev GoString := List Byte

/-- Length of a dependency fingerprint, `DEP_HASH_HEX_SIZE` of `db.go`. -/
def DEP_HASH_HEX_SIZE : Nat := 64

/-- Length of a node identifier, `NODEID_HASH_HEX_SIZE` of `db.go`. -/
def NODEID_HASH_HEX_SIZE : Nat := 32

/-- Ceiling on the identifiers of one record, `MAX_NODEIDS_PER_DEP` of `db.go`. -/
def MAX_NODEIDS_PER_DEP : Nat := 32 * 1024

/-- Errors built with `fmt.Errorf` in `QueryPassedTestHashes` and
`PublishTestHashes`, one constructor per format string. -/
inductive DbError where
  /-- The text "invalid dep_hash length %d". -/
  | invalidDepHashLength (len : Nat)
  /-- The text "too many node_ids %d for dep_hash:%s". -/
  | tooManyNodeIds (count : Nat) (depHash : GoString)
  /-- The text "invalid node_ids length %d of user:%d dep_hash:%s". -/
  | invalidNodeIdsLength (n : Nat) (userId : Int) (depHash : GoString)
  /-- The text "invalid node_id length %d". -/
  | invalidNodeIdLength (len : Nat)
  /-- The text "failed to get node_ids of user:%d dep_hash:%s: %w". -/
  | failedToGetNodeIds (userId : Int) (depHash : GoString) (cause : DbError)
  /-- The text "failed to get current node_ids: %w". -/
  | failedToGetCurrentNodeIds (cause : DbError)
  deriving DecidableEq, Repr

/-- Modelled from the spec: a row of the pass-records table `test_results`
(the schema lives in `migrations/*.sql`, which is not among the sources): the
last-access timestamp and the blob of concatenated identifiers. -/
structure TestResultRow where
  accessedAt : Int
  nodeIds : List Byte
  deriving DecidableEq, Repr

/-- Modelled from the spec: a row of the append-only table `user_usage`, with
the four columns `RecordUsage` inserts. -/
structure UserUsageRow where
  timestamp : Int
  userId : Int
  usage : Int
  count : Int
  deriving DecidableEq, Repr

/-- Modelled from the spec: a row of the credentials table `api_tokens`, keyed
by the token string: owning tenant, optional expiration, optional disabling
instant. -/
structure ApiTokenRow where
  userId : Int
  expiresAt : Option Int
  disabledAt : Option Int
  deriving DecidableEq, Repr

/-- Modelled from the spec: a row of the tenants table `users`, keyed by id. -/
structure UserRow where
  disabledAt : Option Int
  superuser : Bool
  deriving DecidableEq, Repr

/-- Modelled from the spec: the persisted state. `test_results` is keyed by
(tenant id, fingerprint), `api_tokens` by the token string and `users` by id,
so each lookup finds at most one row; `user_usage` is append-only. -/
structure Db where
  testResults : Int → GoString → Option TestResultRow
  userUsage : List UserUsageRow
  apiTokens : GoString → Option ApiTokenRow
  users : Int → Option UserRow

/-- The store right after the tables are created: no row anywhere. -/
def Db.empty : Db :=
  { testResults := fun _ _ => none
    userUsage := []
    apiTokens := fun _ => none
    users := fun _ => none }

/-- The statement `INSERT OR REPLACE INTO test_results(user_id, dep_hash,
accessed_at, node_ids)`: the row of that key is created or replaced. -/
def Db.insertOrReplace (db : Db) (userId : Int) (depHash : GoString)
    (accessedAt : Int) (nodeIds : List Byte) : Db :=
  { db with
    testResults := fun u d =>
      if u = userId ∧ d = depHash then some ⟨accessedAt, nodeIds⟩
      else db.testResults u d }

/-- What the Go runtime decides while `PublishTestHashes` handles one
fingerprint: the order in which `range nodeIds` visits the keys of the
in-memory set (any permutation of the keys) and the value of
`time.Now().Unix()` when the record is written. -/
structure Runtime where
  rangeOrder : GoString → List GoString → List GoString
  rangeOrder_perm : ∀ depHash keys, (rangeOrder depHash keys).Perm keys
  now : GoString → Int

/-- A runtime that visits the keys in the order the model holds them and
reads the instant `t` from the clock. -/
def Runtime.plain (t : Int) : Runtime :=
  { rangeOrder := fun _ keys => keys
    rangeOrder_perm := fun _ _ => List.Perm.refl _
    now := fun _ => t }

/-- A runtime that visits the keys in the reverse order. -/
def Runtime.reversed (t : Int) : Runtime :=
  { rangeOrder := fun _ keys => keys.reverse
    rangeOrder_perm := fun _ keys => List.reverse_perm keys
    now := fun _ => t }

/-! ## Blob encoding -/

/-- The loop `for i := 0; i < len(concatedNodeIds); i += NODEID_HASH_HEX_SIZE`
that cuts the slice `concatedNodeIds[i:i+NODEID_HASH_HEX_SIZE]` at each step.
`fuel` bounds the number of iterations; `decodeNodeIds` passes `len(blob)`,
which the loop never exhausts since `i` grows at each step. (The loop is
only entered on a blob whose length is a multiple of the width, so the Go
slice expression never goes out of range.) -/
def decodeLoop (blob : List Byte) : Nat → Nat → List GoString
  | 0, _ => []
  | fuel + 1, i =>
    if i < blob.length then
      (blob.drop i).take NODEID_HASH_HEX_SIZE ::
        decodeLoop blob fuel (i + NODEID_HASH_HEX_SIZE)
    else []

/-- The identifiers of a blob, in blob order. -/
def decodeNodeIds (blob : List Byte) : List GoString :=
  decodeLoop blob blob.length 0

/-- The loop `for nodeId := range nodeIds { concatedNodeIds =
append(concatedNodeIds, nodeId[:]...) }` on the keys in the order visited. -/
def concatNodeIds (visited : List GoString) : List Byte :=
  visited.flatten

/-- The statement `nodeIds[key] = true` on the Go map
`map[[NODEID_HASH_HEX_SIZE]byte]bool`, held as the list of its keys. -/
def mapSet (nodeIds : List GoString) (key : GoString) : List GoString :=
  if key ∈ nodeIds then nodeIds else key :: nodeIds

/-! ## QueryPassedTestHashes -/

/-- The loop of `QueryPassedTestHashes` over `depHashes`; `total` is
`len(nodeIds)`, the number of fingerprints of the call, which the error of
a corrupt blob prints. -/
def queryLoop (db : Db) (userId : Int) (total : Nat) :
    List GoString → Except DbError (List (List GoString))
  | [] => .ok []
  | depHash :: rest =>
    if depHash.length ≠ DEP_HASH_HEX_SIZE then
      .error (.invalidDepHashLength depHash.length)
    else
      match db.testResults userId depHash with
      | none =>
        match queryLoop db userId total rest with
        | .ok tail => .ok ([] :: tail)
        | .error e => .error e
      | some row =>
        if row.nodeIds.length % NODEID_HASH_HEX_SIZE ≠ 0 then
          .error (.failedToGetNodeIds userId depHash
            (.invalidNodeIdsLength total userId depHash))
        else
          match queryLoop db userId total rest with
          | .ok tail => .ok (decodeNodeIds row.nodeIds :: tail)
          | .error e => .error e

/-- Embedding of `QueryPassedTestHashes(db, userId, depHashes)`: the result
list, or the error with which the Go function returns `nil`. -/
def QueryPassedTestHashes (db : Db) (userId : Int) (depHashes : List GoString) :
    Except DbError (List (List GoString)) :=
  queryLoop db userId depHashes.length depHashes

/-! ## PublishTestHashes -/

/-- The `SELECT node_ids` of `PublishTestHashes` with its `ResultFunc`: the
in-memory set `nodeIds` after the current record, if any, was loaded. The
`ResultFunc` runs only when a row exists. -/
def loadCurrentNodeIds (db : Db) (userId : Int) (depHash : GoString)
    (newNodeIds : List GoString) : Except DbError (List GoString) :=
  match db.testResults userId depHash with
  | none => .ok []
  | some row =>
    if row.nodeIds.length % NODEID_HASH_HEX_SIZE ≠ 0 then
      .error (.invalidNodeIdsLength 0 userId depHash)
    else if row.nodeIds.length / NODEID_HASH_HEX_SIZE + newNodeIds.length
        > MAX_NODEIDS_PER_DEP then
      .error (.tooManyNodeIds
        (row.nodeIds.length / NODEID_HASH_HEX_SIZE + newNodeIds.length) depHash)
    else
      .ok ((decodeNodeIds row.nodeIds).foldl mapSet [])

/-- The loop `for _, newNodeId := range newNodeIds` that checks the length
of each new identifier and adds it to the set. -/
def addNewNodeIds : List GoString → List GoString → Except DbError (List GoString)
  | nodeIds, [] => .ok nodeIds
  | nodeIds, newNodeId :: rest =>
    if newNodeId.length ≠ NODEID_HASH_HEX_SIZE then
      .error (.invalidNodeIdLength newNodeId.length)
    else addNewNodeIds (mapSet nodeIds newNodeId) rest

/-- One iteration of the loop `for depHash, newNodeIds := range tests` of
`PublishTestHashes`: the store after the iteration and the error with which
the function returns, if any. -/
def publishDepHash (rt : Runtime) (db : Db) (userId : Int) (depHash : GoString)
    (newNodeIds : List GoString) : Db × Option DbError :=
  if depHash.length ≠ DEP_HASH_HEX_SIZE then
    (db, some (.invalidDepHashLength depHash.length))
  else if newNodeIds.length > MAX_NODEIDS_PER_DEP then
    (db, some (.tooManyNodeIds newNodeIds.length depHash))
  else
    match loadCurrentNodeIds db userId depHash newNodeIds with
    | .error e => (db, some (.failedToGetCurrentNodeIds e))
    | .ok current =>
      match addNewNodeIds current newNodeIds with
      | .error e => (db, some e)
      | .ok nodeIds =>
        (db.insertOrReplace userId depHash (rt.now depHash)
          (concatNodeIds (rt.rangeOrder depHash nodeIds)), none)

/-- Embedding of `PublishTestHashes(db, userId, tests)`; `tests` lists the
entries of the Go map in the order `range` visits them. The function returns
at the first error, and the records written before it stay written. -/
def PublishTestHashes (rt : Runtime) (db : Db) (userId : Int) :
    List (GoString × List GoString) → Db × Option DbError
  | [] => (db, none)
  | (depHash, newNodeIds) :: rest =>
    match publishDepHash rt db userId depHash newNodeIds with
    | (db', none) => PublishTestHashes rt db' userId rest
    | (db', some e) => (db', some e)


/-- One `PublishTestHashes` call with what the runtime decides during it. -/
structure PublishCall where
  rt : Runtime
  userId : Int
  tests : List (GoString × List GoString)

/-- The store after a sequence of `PublishTestHashes` calls, each applied
to the store the previous one left (with or without an error). -/
def runPublishes (db : Db) : List PublishCall → Db
  | [] => db
  | c :: rest => runPublishes (PublishTestHashes c.rt db c.userId c.tests).1 rest

/-! ## AuthUser -/

/-- The constant `http.StatusUnauthorized`. -/
def StatusUnauthorized : Nat := 401

/-- The errors built with `fmt.Errorf` in `AuthUser`, one constructor per
format string. -/
inductive AuthCause where
  /-- The text "token length out of bounds (%d)". -/
  | tokenLengthOutOfBounds (len : Nat)
  /-- The text "token expired at %d for user %d". -/
  | tokenExpired (expiresAt : Int) (userId : Int)
  /-- The text "token disabled for user %d". -/
  | tokenDisabled (userId : Int)
  /-- The text "token not found". -/
  | tokenNotFound
  deriving DecidableEq, Repr

/-- The struct `HttpErrWrapper` of `utils.go`. -/
structure HttpErrWrapper where
  code : Nat
  message : String
  err : AuthCause
  deriving DecidableEq, Repr

/-- The constructor function `HttpErrWrap` of `utils.go`. -/
def HttpErrWrap (code : Nat) (message : String) (err : AuthCause) : HttpErrWrapper :=
  { code := code, message := message, err := err }

/-- The three columns of the `SELECT` of `AuthUser`: `t.user_id`,
`t.expires_at` and `t.disabled_at IS NULL AND u.disabled_at IS NULL`. -/
structure AuthRow where
  userId : Int
  expiresAt : Option Int
  tokenEnabled : Bool
  deriving DecidableEq, Repr

/-- The `SELECT ... FROM api_tokens t JOIN users u ON t.user_id = u.id WHERE
token = ?`: the row of the token joined with the row of its tenant, when
both exist. -/
def selectAuthRow (db : Db) (token : GoString) : Option AuthRow :=
  match db.apiTokens token with
  | none => none
  | some t =>
    match db.users t.userId with
    | none => none
    | some u =>
      some { userId := t.userId
             expiresAt := t.expiresAt
             tokenEnabled := t.disabledAt.isNone && u.disabledAt.isNone }

/-- The `ResultFunc` of `AuthUser` on the row found; `now` is
`time.Now().Unix()`. -/
def authResultFunc (now : Int) (row : AuthRow) : Option HttpErrWrapper :=
  match row.expiresAt with
  | some expiresAt =>
    if now > expiresAt then
      some (HttpErrWrap StatusUnauthorized "Token Expired"
        (.tokenExpired expiresAt row.userId))
    else if !row.tokenEnabled then
      some (HttpErrWrap StatusUnauthorized "Token Disabled" (.tokenDisabled row.userId))
    else none
  | none =>
    if !row.tokenEnabled then
      some (HttpErrWrap StatusUnauthorized "Token Disabled" (.tokenDisabled row.userId))
    else none

/-- Embedding of `AuthUser(db, token)`: the pair `(userId, err)` returned. -/
def AuthUser (db : Db) (now : Int) (token : GoString) : Int × Option HttpErrWrapper :=
  if token.length > 40 ∨ token.length = 0 then
    (-1, some (HttpErrWrap StatusUnauthorized "Invalid Token"
      (.tokenLengthOutOfBounds token.length)))
  else
    match selectAuthRow db token with
    | none =>
      (-1, some (HttpErrWrap StatusUnauthorized "Invalid Token" .tokenNotFound))
    | some row =>
      match authResultFunc now row with
      | some e => (-1, some e)
      | none => (row.userId, none)

/-! ## The flush of the write pipeline -/

/-- The struct `UsageRecord` of `main.go`; `Timestamp` is held as its Unix
time, the only form in which `RecordUsage` reads it. -/
structure UsageRecord where
  Timestamp : Int
  UserId : Int
  Usage : Int
  deriving DecidableEq, Repr

/-- The struct `PublishRequest` of `main.go`. -/
structure PublishRequest where
  PassedNodeIdsPerTestFile : List (GoString × List GoString)
  TotalTestCount : Int
  PassedTestCount : Int
  FailedTestCount : Int
  SkippedTestCount : Int
  SkippedByCacheTestCount : Int
  deriving DecidableEq, Repr

/-- The struct `UserPublishRequest` of `main.go`. -/
structure UserPublishRequest where
  Req : PublishRequest
  UserId : Int
  deriving DecidableEq, Repr

/-- A value received on `bgProcessChan`, by the cases of the type switch of
`backgroundHandler`. -/
inductive WorkItem where
  | usageRecord (item : UsageRecord)
  | userPublishRequest (item : UserPublishRequest)
  | unknown
  deriving DecidableEq, Repr

/-- Embedding of `RecordUsage(db, userId, usage, timestamp)`: one row is
appended to `user_usage`, with count 1. -/
def RecordUsage (db : Db) (userId : Int) (usage : Int) (timestamp : Int) :
    Db × Option DbError :=
  ({ db with userUsage := db.userUsage ++ [⟨timestamp, userId, usage, 1⟩] }, none)

/-- Embedding of `backgroundHandler(db, items)`, from the item of index `k`
on: the store after the loop and the errors it logged with "Failed to ...".
`rt k` is what the runtime decides while item `k` is handled. An error is
logged and the loop goes on with the next item; nothing is returned to the
caller. -/
def backgroundHandlerFrom (rt : Nat → Runtime) (k : Nat) (db : Db) :
    List WorkItem → Db × List DbError
  | [] => (db, [])
  | .usageRecord item :: rest =>
    match RecordUsage db item.UserId item.Usage item.Timestamp with
    | (db', none) => backgroundHandlerFrom rt (k + 1) db' rest
    | (db', some e) =>
      let r := backgroundHandlerFrom rt (k + 1) db' rest
      (r.1, e :: r.2)
  | .userPublishRequest item :: rest =>
    match PublishTestHashes (rt k) db item.UserId item.Req.PassedNodeIdsPerTestFile with
    | (db', none) => backgroundHandlerFrom rt (k + 1) db' rest
    | (db', some e) =>
      let r := backgroundHandlerFrom rt (k + 1) db' rest
      (r.1, e :: r.2)
  | .unknown :: rest => backgroundHandlerFrom rt (k + 1) db rest

/-- Embedding of `backgroundHandler(db, items)`. -/
def backgroundHandler (rt : Nat → Runtime) (db : Db) (items : List WorkItem) :
    Db × List DbError :=
  backgroundHandlerFrom rt 0 db items

/-- The error of `DbTxn`: the transaction could not be started, or the
error `f` returned. -/
inductive TxnError (ε : Type) where
  /-- The text "failed to start transaction: %w". -/
  | failedToStart
  | returned (e : ε)
  deriving DecidableEq, Repr

/-- Embedding of `DbTxn(db, writesToDb, f)`. `beginFails` tells whether
`BEGIN IMMEDIATE` fails; `COMMIT` is assumed to succeed. The function
returned by `sqlitex` commits when the `error` it is given the address of
is nil and rolls back otherwise.

With `writesToDb`, `endTxn, err := sqlitex.ImmediateTransaction(db)`
declares a new `err` in the block of the `if`, and `defer endTxn(&err)`
takes the address of that one: it is nil when the deferred call runs, so
the transaction commits whatever `f` returns. Without `writesToDb`, the
deferred call reads the result `err` of `DbTxn`, set by `return f()`. -/
def DbTxn {ε : Type} (beginFails : Bool) (db : Db) (writesToDb : Bool)
    (f : Db → Db × Option ε) : Db × Option (TxnError ε) :=
  if writesToDb then
    if beginFails then (db, some .failedToStart)
    else
      match f db with
      | (db', none) => (db', none)
      | (db', some e) => (db', some (.returned e))
  else
    match f db with
    | (db', none) => (db', none)
    | (_, some e) => (db, some (.returned e))

/-- The block `if doCommit && len(workItems) > 0` of
`batchedBackgroundWorker` with `backgroundHandler` as the handler: the
store after the flush and the error of `DbTxn`. The function given to
`DbTxn` calls the handler and returns nil. -/
def flushWorkItems (beginFails : Bool) (rt : Nat → Runtime) (db : Db)
    (workItems : List WorkItem) : Db × Option (TxnError DbError) :=
  DbTxn beginFails db true (fun d => ((backgroundHandler rt d workItems).1, none))

/-! ## Observations used in the statements -/

/-- The identifiers on record for a tenant and fingerprint, read as
`QueryPassedTestHashes` reads them; empty when there is no record. -/
def storedNodeIds (db : Db) (userId : Int) (depHash : GoString) : List GoString :=
  match db.testResults userId depHash with
  | none => []
  | some row => decodeNodeIds row.nodeIds

/-- The number of identifiers on record as `PublishTestHashes` counts them:
`stmt.ColumnLen(0) / NODEID_HASH_HEX_SIZE`, and 0 when there is no record. -/
def storedCount (db : Db) (userId : Int) (depHash : GoString) : Nat :=
  match db.testResults userId depHash with
  | none => 0
  | some row => row.nodeIds.length / NODEID_HASH_HEX_SIZE

/-- The blob on record, if any, has a length that is a multiple of the
identifier width. -/
def RecordAligned (db : Db) (userId : Int) (depHash : GoString) : Prop :=
  ∀ row, db.testResults userId depHash = some row →
    row.nodeIds.length % NODEID_HASH_HEX_SIZE = 0

/-- The error is one of the two quota rejections of `PublishTestHashes`:
the check on the new list alone, or the check inside the `ResultFunc`,
which comes back wrapped. -/
def DbError.isQuota : DbError → Bool
  | .tooManyNodeIds _ _ => true
  | .failedToGetCurrentNodeIds (.tooManyNodeIds _ _) => true
  | _ => false


/-- The set `nodeIds` that `PublishTestHashes` holds for a fingerprint once
the identifiers on record and the new ones are in. -/
def mergedNodeIds (db : Db) (userId : Int) (depHash : GoString)
    (newNodeIds : List GoString) : List GoString :=
  newNodeIds.foldl mapSet ((storedNodeIds db userId depHash).foldl mapSet [])


/-- An update of one record that `PublishTestHashes` applied without error:
the tenant, the fingerprint and the identifier list of the entry. -/
structure AppliedUpdate where
  userId : Int
  depHash : GoString
  nodeIds : List GoString

/-- The entries of one call that were applied without error: those visited
before the first entry that fails, if any. -/
def appliedInCall (rt : Runtime) (db : Db) (userId : Int) :
    List (GoString × List GoString) → List AppliedUpdate
  | [] => []
  | (depHash, newNodeIds) :: rest =>
    match publishDepHash rt db userId depHash newNodeIds with
    | (db', none) => ⟨userId, depHash, newNodeIds⟩ :: appliedInCall rt db' userId rest
    | (_, some _) => []

/-- The updates applied without error by a sequence of calls. -/
def appliedUpdates (db : Db) : List PublishCall → List AppliedUpdate
  | [] => []
  | c :: rest =>
    appliedInCall c.rt db c.userId c.tests ++
      appliedUpdates (PublishTestHashes c.rt db c.userId c.tests).1 rest

/-- Well-formedness of a record blob: its length is a multiple of the
identifier width, it holds no identifier twice, and it holds at most
`MAX_NODEIDS_PER_DEP` identifiers. -/
def WellFormedBlob (blob : List Byte) : Prop :=
  blob.length % NODEID_HASH_HEX_SIZE = 0 ∧ (decodeNodeIds blob).Nodup ∧
    (decodeNodeIds blob).length ≤ MAX_NODEIDS_PER_DEP

/-- Every record of the store is well formed. -/
def StoreWellFormed (db : Db) : Prop :=
  ∀ u f row, db.testResults u f = some row → WellFormedBlob row.nodeIds

/-- The row `RecordUsage` appends for a usage record of the batch; a work
item of another kind appends none. -/
def usageRowOf : WorkItem → Option UserUsageRow
  | .usageRecord item => some ⟨item.Timestamp, item.UserId, item.Usage, 1⟩
  | _ => none

/-- The update of one fingerprint is rejected for quota reasons: the call
with that single entry returns one of the quota errors. -/
def QuotaRejected (rt : Runtime) (db : Db) (userId : Int) (depHash : GoString)
    (newNodeIds : List GoString) : Prop :=
  ∃ e, (PublishTestHashes rt db userId [(depHash, newNodeIds)]).2 = some e ∧
    e.isQuota = true

/-- The size of the union of the identifier set on record with the new
identifiers, as the specification words the quota rule (this definition
follows the specification, not the code). -/
def unionSize (db : Db) (userId : Int) (depHash : GoString)
    (newNodeIds : List GoString) : Nat :=
  ((storedNodeIds db userId depHash).toFinset ∪ newNodeIds.toFinset).card

/-! ## Concrete inputs used by the witnesses and counterexamples -/

/-- A fingerprint of 64 bytes, all equal to `b`. -/
def sampleDepHash (b : Byte) : GoString := List.replicate 64 b

/-- An identifier of 32 bytes, all equal to `b`. -/
def sampleNodeId (b : Byte) : GoString := List.replicate 32 b

/-- Two calls of tenant 1 on the same fingerprint with overlapping lists. -/
def sampleCalls : List PublishCall :=
  [ { rt := Runtime.plain 0, userId := 1
      tests := [(sampleDepHash 7, [sampleNodeId 1, sampleNodeId 2])] },
    { rt := Runtime.reversed 5, userId := 1
      tests := [(sampleDepHash 7, [sampleNodeId 2, sampleNodeId 3])] } ]

/-- An identifier of 32 bytes whose last two bytes spell `n` in base 256. -/
def numberedNodeId (n : Nat) : GoString :=
  List.replicate 30 0 ++ [Fin.ofNat (n / 256), Fin.ofNat (n % 256)]

/-- The identifiers numbered `0` to `k - 1`, pairwise distinct up to
`k = 65536`. -/
def numberedNodeIds (k : Nat) : List GoString :=
  (List.range k).map numberedNodeId

/-- A blob that holds exactly `MAX_NODEIDS_PER_DEP` identifiers. -/
def fullBlob : List Byte :=
  concatNodeIds (numberedNodeIds MAX_NODEIDS_PER_DEP)

/-- A record that holds exactly `MAX_NODEIDS_PER_DEP` identifiers. -/
def fullRow : TestResultRow :=
  { accessedAt := 0, nodeIds := fullBlob }

/-- A store whose only record, of tenant 1, is `fullRow`. -/
def fullDb : Db :=
  Db.empty.insertOrReplace 1 (sampleDepHash 7) 0 fullBlob

/-- A list of 32769 copies of one identifier. -/
def repeatedNodeIds : List GoString :=
  List.replicate (MAX_NODEIDS_PER_DEP + 1) (sampleNodeId 1)

/-- A fingerprint one byte short: 63 bytes. -/
def shortDepHash : GoString := List.replicate 63 7

/-- A store whose only record, of tenant 1, has a blob of one byte: not
a multiple of the identifier width. -/
def corruptDb : Db :=
  Db.empty.insertOrReplace 1 (sampleDepHash 7) 0 [0]

/-- A token of 32 bytes. -/
def sampleToken : GoString := List.replicate 32 1

/-- A store with one enabled tenant, of id 1, and one credential bound to
it, `sampleToken`, that expires at instant 100 and is not disabled. -/
def sampleAuthDb : Db :=
  { Db.empty with
    apiTokens := fun token =>
      if token = sampleToken then
        some { userId := 1, expiresAt := some 100, disabledAt := none }
      else none
    users := fun id =>
      if id = 1 then some { disabledAt := none, superuser := true } else none }

/-- A batch of two intents of tenant 1: a publish whose first fingerprint is
valid and whose second one is one byte short, then a usage record. -/
def failingBatch : List WorkItem :=
  [ .userPublishRequest
      { Req := { PassedNodeIdsPerTestFile :=
                   [(sampleDepHash 7, [sampleNodeId 1]), (shortDepHash, [])]
                 TotalTestCount := 1, PassedTestCount := 1, FailedTestCount := 0
                 SkippedTestCount := 0, SkippedByCacheTestCount := 0 }
        UserId := 1 },
    .usageRecord { Timestamp := 9, UserId := 1, Usage := 2 } ]

/-! ## batchedBackgroundWorker

The worker is one goroutine that reacts to three event sources through a
`select`. A run is modelled as a sequence of atomic events on the state of
the pipeline: the sends of the request handlers on `bgProcessChan`, the
`close(done)` of `main`, and the case that each `select` of the worker takes.
Which case a `select` takes among the ready ones, and when, is decided by
the Go scheduler: it is the choice of the event in the sequence. -/

/-- The duration `9999 * time.Hour` in nanoseconds, the unit of
`time.Duration`. -/
def idleDuration : Int := 9999 * 3600000000000

/-- The duration `100 * time.Millisecond` that `main` passes as `batchTime`. -/
def mainBatchTime : Int := 100 * 1000000

/-- The capacity `16 * 1024` of `bgProcessChan`. -/
def bgProcessChanCapacity : Nat := 16 * 1024

/-- The local variables of `batchedBackgroundWorker`; an instant is held in
nanoseconds. -/
structure WorkerState where
  isDone : Bool
  isSleeping : Bool
  workItems : List WorkItem
  nextCommitTime : Int
  deriving DecidableEq, Repr

/-- The variables of the worker when the loop is entered; `now` is the
value of `time.Now()`. -/
def WorkerState.start (now : Int) : WorkerState :=
  { isDone := false
    isSleeping := true
    workItems := []
    nextCommitTime := now + idleDuration }

/-- The case taken by one `select` of the worker, with the value received
and the value of `time.Now()` read in the branch. -/
inductive Selected where
  /-- The case `<-done`. -/
  | done
  /-- The case `<-time.After(time.Until(nextCommitTime))`. -/
  | timer (now : Int)
  /-- The case `item := <-work`. -/
  | work (item : WorkItem) (now : Int)
  deriving DecidableEq, Repr

/-- The `select` statement of the loop: the variables after the branch and
the value of `doCommit`. -/
def selectBranch (batchTime : Int) (s : WorkerState) : Selected → WorkerState × Bool
  | .done => ({ s with isDone := true }, true)
  | .timer now =>
    ({ s with nextCommitTime := now + idleDuration, isSleeping := true }, true)
  | .work item now =>
    if s.isSleeping then
      ({ s with workItems := s.workItems ++ [item]
                nextCommitTime := now + batchTime
                isSleeping := false }, false)
    else
      ({ s with workItems := s.workItems ++ [item] }, false)

/-- What one iteration of the loop did to the accumulated list: the batch
given to `DbTxn`, if any, and the error `DbTxn` returned. -/
structure Flush where
  batch : List WorkItem
  err : Option (TxnError DbError)

/-- The block `if doCommit && len(workItems) > 0` of the loop, for any
handler: the variables and the store after it, and the flush it made. The
function given to `DbTxn` calls the handler and returns nil; `workItems` is
reset whatever `DbTxn` returns. -/
def commitBlock (handler : Db → List WorkItem → Db) (beginFails : Bool)
    (doCommit : Bool) (s : WorkerState) (db : Db) : WorkerState × Db × Option Flush :=
  if doCommit && decide (s.workItems.length > 0) then
    match DbTxn beginFails db true
        (fun d => (handler d s.workItems, (none : Option DbError))) with
    | (db', err) => ({ s with workItems := [] }, db', some ⟨s.workItems, err⟩)
  else (s, db, none)

/-- One iteration of the loop `for !isDone` of `batchedBackgroundWorker`. -/
def workerIteration (handler : Db → List WorkItem → Db) (batchTime : Int)
    (beginFails : Bool) (s : WorkerState) (db : Db) (sel : Selected) :
    WorkerState × Db × Option Flush :=
  match selectBranch batchTime s sel with
  | (s', doCommit) => commitBlock handler beginFails doCommit s' db

/-- The handler `main` gives to the worker: `api_server.backgroundHandler`,
whose logged errors are not returned. -/
def mainHandler (rt : Nat → Runtime) (db : Db) (items : List WorkItem) : Db :=
  (backgroundHandler rt db items).1

/-- History of one flush: the batch given to `DbTxn` and whether `BEGIN
IMMEDIATE` failed for it. -/
structure FlushAttempt where
  batch : List WorkItem
  beginFailed : Bool
  deriving DecidableEq, Repr

/-- The state of the pipeline: the content of the buffered channel
`bgProcessChan` (head first), whether `done` is closed, the variables of the
worker and the store, followed by four history variables that the code
does not hold: the intents sent on the channel, the intents the worker
received, the flushes made (the batch given to `DbTxn` and whether its
transaction failed to start), and the batches with which the handler was
called. The handler being a function of the store, its calls show in the
store only: `handled` is these calls in the sense that the store of the
pipeline is the starting store to which the handler was applied with the
batches of `handled`, in order, which is proved of every run. -/
structure Pipeline where
  work : List WorkItem
  doneClosed : Bool
  worker : WorkerState
  db : Db
  sent : List WorkItem
  received : List WorkItem
  attempts : List FlushAttempt
  handled : List (List WorkItem)

/-- The batches given to `DbTxn`, in the order of the flushes. -/
def Pipeline.flushed (p : Pipeline) : List (List WorkItem) :=
  p.attempts.map (fun a => a.batch)

/-- The batches of the flushes whose transaction started, in the order of
the flushes. -/
def Pipeline.started (p : Pipeline) : List (List WorkItem) :=
  (p.attempts.filter (fun a => !a.beginFailed)).map (fun a => a.batch)

/-- The pipeline when the worker enters its loop at instant `now`. -/
def Pipeline.start (db : Db) (now : Int) : Pipeline :=
  { work := [], doneClosed := false, worker := WorkerState.start now, db := db
    sent := [], received := [], attempts := [], handled := [] }

/-- An atomic event of a run of the pipeline. For the three cases of the
`select`, `beginFails` tells whether `BEGIN IMMEDIATE` fails should the
iteration flush, and `now` is the value of `time.Now()` read in the branch. -/
inductive PipelineEvent where
  /-- A send `s.bgProcessChan <- item` of a request handler completes. -/
  | send (item : WorkItem)
  /-- The call `close(done)` of `main`. -/
  | closeDone
  /-- The `select` takes `<-done`. -/
  | selectDone (beginFails : Bool)
  /-- The `select` takes the timer. -/
  | selectTimer (now : Int) (beginFails : Bool)
  /-- The `select` takes `item := <-work`. -/
  | selectWork (now : Int)
  deriving DecidableEq, Repr

/-- The event is a case of the `select` in which the code sets `doCommit`. -/
def PipelineEvent.setsDoCommit : PipelineEvent → Bool
  | .selectDone _ => true
  | .selectTimer _ _ => true
  | _ => false

/-- The transaction of the flush of this event, should there be one, fails
to start. -/
def PipelineEvent.txnFails : PipelineEvent → Bool
  | .selectDone beginFails => beginFails
  | .selectTimer _ beginFails => beginFails
  | _ => false

/-- The pipeline after one iteration of the worker that took the case
`sel`, history variables included: a flush is recorded with the outcome of
`BEGIN IMMEDIATE`, and its batch is recorded as given to the handler unless
`DbTxn` returned before calling the function it was given. -/
def Pipeline.afterIteration (handler : Db → List WorkItem → Db) (batchTime : Int)
    (beginFails : Bool) (p : Pipeline) (sel : Selected) : Pipeline :=
  match workerIteration handler batchTime beginFails p.worker p.db sel with
  | (s', db', none) => { p with worker := s', db := db' }
  | (s', db', some fl) =>
    { p with
      worker := s'
      db := db'
      attempts := p.attempts ++ [⟨fl.batch, beginFails⟩]
      handled :=
        match fl.err with
        | some .failedToStart => p.handled
        | _ => p.handled ++ [fl.batch] }

/-- One event of a run, or `none` when the event cannot happen in that
state: a send needs room in the channel, `done` is closed once, the worker
takes a case only while its loop runs, `<-done` only once `done` is closed,
the timer only once `nextCommitTime` is reached, and `<-work` only when the
channel holds an intent, which is then the head of the channel. -/
def Pipeline.step (handler : Db → List WorkItem → Db) (batchTime : Int)
    (p : Pipeline) : PipelineEvent → Option Pipeline
  | .send item =>
    if p.work.length < bgProcessChanCapacity then
      some { p with work := p.work ++ [item], sent := p.sent ++ [item] }
    else none
  | .closeDone =>
    if p.doneClosed then none else some { p with doneClosed := true }
  | .selectDone beginFails =>
    if p.worker.isDone = false ∧ p.doneClosed = true then
      some (p.afterIteration handler batchTime beginFails .done)
    else none
  | .selectTimer now beginFails =>
    if p.worker.isDone = false ∧ p.worker.nextCommitTime ≤ now then
      some (p.afterIteration handler batchTime beginFails (.timer now))
    else none
  | .selectWork now =>
    if p.worker.isDone = false then
      match p.work with
      | [] => none
      | item :: rest =>
        some (({ p with work := rest, received := p.received ++ [item] } :
          Pipeline).afterIteration handler batchTime false (.work item now))
    else none

/-- A run: the events applied in order, `none` when one of them cannot
happen. -/
def Pipeline.run (handler : Db → List WorkItem → Db) (batchTime : Int) :
    Pipeline → List PipelineEvent → Option Pipeline
  | p, [] => some p
  | p, ev :: rest =>
    match p.step handler batchTime ev with
    | none => none
    | some p' => Pipeline.run handler batchTime p' rest

/-! ## GenToken -/

/-- The bytes of a string literal of the source (all literals used are
ASCII). -/
def goString (s : String) : GoString :=
  s.toList.map (fun c => Fin.ofNat c.toNat)

/-- The alphabet given to `base32.NewEncoding`. -/
def base32Alphabet : GoString :=
  goString "abcdefghijklmnopqrstuvwxyz234567"

/-- The character of a 5-bit value: `enc.encode[v]`. -/
def encodeChar (v : Nat) : Byte :=
  base32Alphabet.getD v 0

/-- Modelled from the spec: the eight 5-bit values of a group of five bytes,
most significant bits first, as `encoding/base32` of the Go standard library
(not among the sources) cuts them, following RFC 4648; the specification
only says "encoded in a restricted lowercase alphabet, no padding". -/
def quantum (s0 s1 s2 s3 s4 : Byte) : List Nat :=
  [ s0.val / 8,
    (s0.val % 8) * 4 + s1.val / 64,
    (s1.val / 2) % 32,
    (s1.val % 2) * 16 + s2.val / 16,
    (s2.val % 16) * 2 + s3.val / 128,
    (s3.val / 4) % 32,
    (s3.val % 4) * 8 + s4.val / 32,
    s4.val % 32 ]

/-- Modelled from the spec: `base32Enc.EncodeToString`, the encoder of
`encoding/base32` of the Go standard library (not among the sources) with
the alphabet of `base32Enc` and `NoPadding`: each group of five bytes gives
eight characters, and a last group of 1, 2, 3 or 4 bytes gives 2, 4, 5 or 7
characters and no padding. -/
def base32Encode : List Byte → List Byte
  | s0 :: s1 :: s2 :: s3 :: s4 :: rest =>
    (quantum s0 s1 s2 s3 s4).map encodeChar ++ base32Encode rest
  | [s0, s1, s2, s3] => ((quantum s0 s1 s2 s3 0).take 7).map encodeChar
  | [s0, s1, s2] => ((quantum s0 s1 s2 0 0).take 5).map encodeChar
  | [s0, s1] => ((quantum s0 s1 0 0 0).take 4).map encodeChar
  | [s0] => ((quantum s0 0 0 0 0).take 2).map encodeChar
  | [] => []

/-- Embedding of `GenToken()`; `b` is the slice of 16 bytes that
`rand.Read` filled (the call is assumed to succeed, otherwise the process
exits in `log.Fatalf`). -/
def GenToken (b : List Byte) : GoString :=
  goString "dryci-" ++ base32Encode b

/-- The invariant of a run: the batches given to `DbTxn`, concatenated,
followed by the accumulated list are the intents received; the batches given
to the handler are the batches of the flushes whose transaction started; the
intents sent are the ones received followed by the content of the channel;
no batch is empty; and once the loop has ended the accumulated list is
empty. -/
def PipelineInv (p : Pipeline) : Prop :=
  p.flushed.flatten ++ p.worker.workItems = p.received ∧
  p.handled = p.started ∧
  p.sent = p.received ++ p.work ∧
  (∀ batch ∈ p.flushed, batch ≠ []) ∧
  (p.worker.isDone = true → p.worker.workItems = [])

/-! ## Concrete runs of the pipeline -/

/-- A usage record of tenant 1 stamped `t`, as a work item. -/
def sampleUsage (t : Int) : WorkItem :=
  .usageRecord { Timestamp := t, UserId := 1, Usage := 1 }

/-- The handler of `main` under a runtime that visits sets in insertion
order. -/
def sampleHandler : Db → List WorkItem → Db :=
  mainHandler (fun _ => Runtime.plain 0)

/-- A run in which the transaction of the first flush fails to start and
the one of the second flush starts. -/
def droppedBatchTrace : List PipelineEvent :=
  [ .send (sampleUsage 1), .selectWork 1000000, .selectTimer 101000000 true,
    .send (sampleUsage 2), .selectWork 200000000, .selectTimer 300000000 false ]

/-- A run in which two intents are sent, the worker receives the first one,
`main` closes `done`, and the next `select` takes `<-done` while the second
intent is still in the channel. -/
def shutdownTrace : List PipelineEvent :=
  [ .send (sampleUsage 1), .send (sampleUsage 2), .selectWork 1000000,
    .closeDone, .selectDone false ]

/-- A run that ends on `<-done`: the transaction of the first flush fails to
start, the one of the last flush starts. -/
def failedThenShutdownTrace : List PipelineEvent :=
  [ .send (sampleUsage 1), .selectWork 1000000, .selectTimer 101000000 true,
    .send (sampleUsage 2), .selectWork 200000000, .closeDone, .selectDone false ]

/-- The pipeline at the end of a run of `main` from the empty store, the
worker entering its loop at instant 0 (the start itself when an event of
the run cannot happen). -/
def sampleRun (trace : List PipelineEvent) : Pipeline :=
  (Pipeline.run sampleHandler mainBatchTime (Pipeline.start Db.empty 0) trace).getD
    (Pipeline.start Db.empty 0)

/-! ## Lemmas on the blob encoding -/

theorem length_flatten_nodeIds (ids : List GoString)
    (hids : ∀ x ∈ ids, x.length = NODEID_HASH_HEX_SIZE) :
    ids.flatten.length = NODEID_HASH_HEX_SIZE * ids.length := by
  induction ids with
  | nil => simp
  | cons x xs ih =>
    have hx : x.length = NODEID_HASH_HEX_SIZE := hids x (List.mem_cons_self _ _)
    have hxs := ih (fun y hy => hids y (List.mem_cons_of_mem _ hy))
    simp only [List.flatten_cons, List.length_append, List.length_cons, hx, hxs]
    ring

theorem decodeLoop_append_flatten (ids : List GoString)
    (hids : ∀ x ∈ ids, x.length = NODEID_HASH_HEX_SIZE) :
    ∀ (pre : List Byte) (fuel : Nat), ids.length ≤ fuel →
      decodeLoop (pre ++ ids.flatten) fuel pre.length = ids := by
  induction ids with
  | nil =>
    intro pre fuel _
    cases fuel with
    | zero => rfl
    | succ k => simp [decodeLoop]
  | cons x xs ih =>
    intro pre fuel hfuel
    have hx : x.length = NODEID_HASH_HEX_SIZE := hids x (List.mem_cons_self _ _)
    have hpos : 0 < x.length := by rw [hx]; decide
    cases fuel with
    | zero => simp at hfuel
    | succ k =>
      have hk : xs.length ≤ k := by simpa using hfuel
      have hrec := ih (fun y hy => hids y (List.mem_cons_of_mem _ hy)) (pre ++ x) k hk
      have hlt : pre.length < (pre ++ (x :: xs).flatten).length := by
        simp only [List.flatten_cons, List.length_append]; omega
      have hchunk : ((pre ++ (x :: xs).flatten).drop pre.length).take NODEID_HASH_HEX_SIZE = x := by
        rw [List.drop_left, List.flatten_cons]
        exact List.take_left' hx
      have hblob : pre ++ (x :: xs).flatten = (pre ++ x) ++ xs.flatten := by
        simp [List.flatten_cons, List.append_assoc]
      have hidx : pre.length + NODEID_HASH_HEX_SIZE = (pre ++ x).length := by
        simp [hx]
      rw [decodeLoop, if_pos hlt, hchunk, hidx, hblob, hrec]

/-- Decoding the concatenation of fixed-width identifiers gives them back. -/
theorem decodeNodeIds_concatNodeIds (ids : List GoString)
    (hids : ∀ x ∈ ids, x.length = NODEID_HASH_HEX_SIZE) :
    decodeNodeIds (concatNodeIds ids) = ids := by
  have hlen := length_flatten_nodeIds ids hids
  have h := decodeLoop_append_flatten ids hids [] (ids.flatten.length)
    (by rw [hlen]; simp only [NODEID_HASH_HEX_SIZE]; omega)
  simpa [decodeNodeIds, concatNodeIds] using h

theorem exists_nodeIds_of_aligned :
    ∀ (n : Nat) (blob : List Byte), blob.length = NODEID_HASH_HEX_SIZE * n →
      ∃ ids : List GoString, (∀ x ∈ ids, x.length = NODEID_HASH_HEX_SIZE) ∧
        concatNodeIds ids = blob ∧ ids.length = n := by
  intro n
  induction n with
  | zero =>
    intro blob h
    refine ⟨[], by simp, ?_, rfl⟩
    have : blob = [] := List.eq_nil_of_length_eq_zero (by simpa using h)
    simp [concatNodeIds, this]
  | succ n ih =>
    intro blob h
    have hdrop : (blob.drop NODEID_HASH_HEX_SIZE).length = NODEID_HASH_HEX_SIZE * n := by
      rw [List.length_drop, h]; simp only [NODEID_HASH_HEX_SIZE]; omega
    obtain ⟨ids, hids, hcat, hlen⟩ := ih _ hdrop
    refine ⟨blob.take NODEID_HASH_HEX_SIZE :: ids, ?_, ?_, by simp [hlen]⟩
    · intro x hx
      rcases List.mem_cons.mp hx with rfl | hx
      · rw [List.length_take, h]; simp only [NODEID_HASH_HEX_SIZE]; omega
      · exact hids x hx
    · simp only [concatNodeIds, List.flatten_cons] at hcat ⊢
      rw [hcat, List.take_append_drop]

/-- A blob whose length is a multiple of the width is the concatenation of
its decoded identifiers, each of the fixed width, `len / width` of them. -/
theorem decodeNodeIds_of_aligned (blob : List Byte)
    (h : blob.length % NODEID_HASH_HEX_SIZE = 0) :
    concatNodeIds (decodeNodeIds blob) = blob ∧
      (∀ x ∈ decodeNodeIds blob, x.length = NODEID_HASH_HEX_SIZE) ∧
      (decodeNodeIds blob).length = blob.length / NODEID_HASH_HEX_SIZE := by
  have hlen : blob.length = NODEID_HASH_HEX_SIZE * (blob.length / NODEID_HASH_HEX_SIZE) := by
    simp only [NODEID_HASH_HEX_SIZE] at h ⊢; omega
  obtain ⟨ids, hids, hcat, hn⟩ := exists_nodeIds_of_aligned _ blob hlen
  have hdec : decodeNodeIds blob = ids := by
    rw [← hcat]; exact decodeNodeIds_concatNodeIds ids hids
  rw [hdec]
  exact ⟨hcat, hids, hn⟩

/-! ## Lemmas on the in-memory set -/

theorem mem_mapSet (m : List GoString) (k x : GoString) :
    x ∈ mapSet m k ↔ x = k ∨ x ∈ m := by
  unfold mapSet
  by_cases hk : k ∈ m
  · rw [if_pos hk]
    constructor
    · intro h; exact Or.inr h
    · rintro (rfl | h)
      · exact hk
      · exact h
  · rw [if_neg hk]; exact List.mem_cons

theorem nodup_mapSet (m : List GoString) (k : GoString) (h : m.Nodup) :
    (mapSet m k).Nodup := by
  unfold mapSet
  by_cases hk : k ∈ m
  · rw [if_pos hk]; exact h
  · rw [if_neg hk]; exact List.nodup_cons.mpr ⟨hk, h⟩

theorem length_mapSet_le (m : List GoString) (k : GoString) :
    (mapSet m k).length ≤ m.length + 1 := by
  unfold mapSet
  by_cases hk : k ∈ m
  · rw [if_pos hk]; omega
  · rw [if_neg hk]; simp

theorem mem_foldl_mapSet (ks : List GoString) :
    ∀ (m : List GoString) (x : GoString), x ∈ ks.foldl mapSet m ↔ x ∈ m ∨ x ∈ ks := by
  induction ks with
  | nil => intro m x; simp
  | cons k ks ih =>
    intro m x
    simp only [List.foldl_cons, ih, mem_mapSet, List.mem_cons]
    tauto

theorem nodup_foldl_mapSet (ks : List GoString) :
    ∀ (m : List GoString), m.Nodup → (ks.foldl mapSet m).Nodup := by
  induction ks with
  | nil => intro m h; simpa using h
  | cons k ks ih =>
    intro m h
    simp only [List.foldl_cons]
    exact ih _ (nodup_mapSet m k h)

theorem length_foldl_mapSet_le (ks : List GoString) :
    ∀ (m : List GoString), (ks.foldl mapSet m).length ≤ m.length + ks.length := by
  induction ks with
  | nil => intro m; simp
  | cons k ks ih =>
    intro m
    simp only [List.foldl_cons, List.length_cons]
    have h1 := ih (mapSet m k)
    have h2 := length_mapSet_le m k
    omega

theorem addNewNodeIds_ok (newNodeIds : List GoString)
    (hnew : ∀ n ∈ newNodeIds, n.length = NODEID_HASH_HEX_SIZE) :
    ∀ (m : List GoString), addNewNodeIds m newNodeIds = .ok (newNodeIds.foldl mapSet m) := by
  induction newNodeIds with
  | nil => intro m; rfl
  | cons k ks ih =>
    intro m
    have hk : k.length = NODEID_HASH_HEX_SIZE := hnew k (List.mem_cons_self _ _)
    simp only [addNewNodeIds, hk, ne_eq, not_true_eq_false, if_false, List.foldl_cons]
    exact ih (fun n hn => hnew n (List.mem_cons_of_mem _ hn)) _

theorem addNewNodeIds_eq_ok (newNodeIds : List GoString) :
    ∀ (m r : List GoString), addNewNodeIds m newNodeIds = .ok r →
      r = newNodeIds.foldl mapSet m ∧ ∀ n ∈ newNodeIds, n.length = NODEID_HASH_HEX_SIZE := by
  induction newNodeIds with
  | nil =>
    intro m r h
    simp only [addNewNodeIds, Except.ok.injEq] at h
    simp [h]
  | cons k ks ih =>
    intro m r h
    by_cases hk : k.length = NODEID_HASH_HEX_SIZE
    · simp only [addNewNodeIds, hk, ne_eq, not_true_eq_false, if_false] at h
      obtain ⟨hr, hks⟩ := ih _ _ h
      refine ⟨by simpa using hr, ?_⟩
      intro n hn
      rcases List.mem_cons.mp hn with rfl | hn
      · exact hk
      · exact hks n hn
    · simp [addNewNodeIds, hk] at h

/-! ## Lemmas on one iteration of `PublishTestHashes` -/

theorem mem_mergedNodeIds (db : Db) (u : Int) (f : GoString) (new : List GoString)
    (x : GoString) :
    x ∈ mergedNodeIds db u f new ↔ x ∈ storedNodeIds db u f ∨ x ∈ new := by
  simp [mergedNodeIds, mem_foldl_mapSet]

theorem nodup_mergedNodeIds (db : Db) (u : Int) (f : GoString) (new : List GoString) :
    (mergedNodeIds db u f new).Nodup :=
  nodup_foldl_mapSet _ _ (nodup_foldl_mapSet _ _ List.nodup_nil)

theorem storedNodeIds_aligned (db : Db) (u : Int) (f : GoString)
    (hal : RecordAligned db u f) :
    (∀ x ∈ storedNodeIds db u f, x.length = NODEID_HASH_HEX_SIZE) ∧
      (storedNodeIds db u f).length = storedCount db u f := by
  unfold storedNodeIds storedCount
  cases hrow : db.testResults u f with
  | none => simp
  | some row =>
    have h := decodeNodeIds_of_aligned row.nodeIds (hal row hrow)
    exact ⟨h.2.1, h.2.2⟩

theorem length_mergedNodeIds_le (db : Db) (u : Int) (f : GoString) (new : List GoString) :
    (mergedNodeIds db u f new).length ≤ (storedNodeIds db u f).length + new.length := by
  have h1 := length_foldl_mapSet_le new ((storedNodeIds db u f).foldl mapSet [])
  have h2 := length_foldl_mapSet_le (storedNodeIds db u f) []
  simp only [List.length_nil] at h2
  unfold mergedNodeIds
  omega

theorem length_of_mem_mergedNodeIds (db : Db) (u : Int) (f : GoString)
    (new : List GoString) (hal : RecordAligned db u f)
    (hnew : ∀ n ∈ new, n.length = NODEID_HASH_HEX_SIZE) :
    ∀ x ∈ mergedNodeIds db u f new, x.length = NODEID_HASH_HEX_SIZE := by
  intro x hx
  rcases (mem_mergedNodeIds db u f new x).mp hx with h | h
  · exact (storedNodeIds_aligned db u f hal).1 x h
  · exact hnew x h

/-- The load step succeeds exactly when the record, if any, is aligned and
the count on record plus the length of the new list is within the ceiling;
it then holds the identifiers on record. -/
theorem loadCurrentNodeIds_eq_ok (db : Db) (u : Int) (f : GoString)
    (new cur : List GoString) (h : loadCurrentNodeIds db u f new = .ok cur) :
    cur = (storedNodeIds db u f).foldl mapSet [] ∧ RecordAligned db u f ∧
      (db.testResults u f ≠ none → storedCount db u f + new.length ≤ MAX_NODEIDS_PER_DEP) := by
  unfold loadCurrentNodeIds at h
  unfold storedNodeIds storedCount RecordAligned
  cases hrow : db.testResults u f with
  | none =>
    rw [hrow] at h
    simp only [Except.ok.injEq] at h
    subst h
    simp
  | some row =>
    rw [hrow] at h
    simp only [ne_eq, ite_not] at h
    split at h
    · split at h
      · cases h
      · rename_i hal hq
        simp only [Except.ok.injEq] at h
        refine ⟨h.symm, ?_, ?_⟩
        · intro row' hrow'
          cases hrow'
          exact hal
        · intro _
          simpa using hq
    · cases h

theorem loadCurrentNodeIds_ok (db : Db) (u : Int) (f : GoString) (new : List GoString)
    (hal : RecordAligned db u f)
    (hq : storedCount db u f + new.length ≤ MAX_NODEIDS_PER_DEP) :
    loadCurrentNodeIds db u f new = .ok ((storedNodeIds db u f).foldl mapSet []) := by
  unfold loadCurrentNodeIds storedNodeIds
  unfold storedCount at hq
  cases hrow : db.testResults u f with
  | none => rfl
  | some row =>
    rw [hrow] at hq
    have h0 := hal row hrow
    simp only [h0, ne_eq, not_true_eq_false, if_false]
    rw [if_neg (by simpa using hq)]

theorem loadCurrentNodeIds_quota (db : Db) (u : Int) (f : GoString) (new : List GoString)
    (hal : RecordAligned db u f) (hnew : new.length ≤ MAX_NODEIDS_PER_DEP)
    (hq : MAX_NODEIDS_PER_DEP < storedCount db u f + new.length) :
    loadCurrentNodeIds db u f new =
      .error (.tooManyNodeIds (storedCount db u f + new.length) f) := by
  unfold loadCurrentNodeIds
  unfold storedCount at hq ⊢
  cases hrow : db.testResults u f with
  | none => rw [hrow] at hq; simp at hq; omega
  | some row =>
    rw [hrow] at hq
    have h0 := hal row hrow
    simp only [h0, ne_eq, not_true_eq_false, if_false]
    rw [if_pos (by simpa using hq)]

/-- An accepted update writes the merged set, in the order of the visit. -/
theorem publishDepHash_accept (rt : Runtime) (db : Db) (u : Int) (f : GoString)
    (new : List GoString) (hf : f.length = DEP_HASH_HEX_SIZE)
    (hnew : ∀ n ∈ new, n.length = NODEID_HASH_HEX_SIZE)
    (hal : RecordAligned db u f)
    (hq : storedCount db u f + new.length ≤ MAX_NODEIDS_PER_DEP) :
    publishDepHash rt db u f new =
      (db.insertOrReplace u f (rt.now f)
        (concatNodeIds (rt.rangeOrder f (mergedNodeIds db u f new))), none) := by
  have hlen : ¬ new.length > MAX_NODEIDS_PER_DEP := by omega
  unfold publishDepHash
  simp only [hf, ne_eq, not_true_eq_false, if_false, hlen,
    loadCurrentNodeIds_ok db u f new hal hq, addNewNodeIds_ok new hnew]
  rfl

/-- An update whose count on record plus new length is over the ceiling is
rejected with a quota error and writes nothing. -/
theorem publishDepHash_reject (rt : Runtime) (db : Db) (u : Int) (f : GoString)
    (new : List GoString) (hf : f.length = DEP_HASH_HEX_SIZE)
    (hal : RecordAligned db u f)
    (hq : MAX_NODEIDS_PER_DEP < storedCount db u f + new.length) :
    ∃ e, publishDepHash rt db u f new = (db, some e) ∧ e.isQuota = true := by
  unfold publishDepHash
  simp only [hf, ne_eq, not_true_eq_false, if_false]
  by_cases hlen : new.length > MAX_NODEIDS_PER_DEP
  · rw [if_pos hlen]; exact ⟨_, rfl, rfl⟩
  · rw [if_neg hlen, loadCurrentNodeIds_quota db u f new hal (by omega) hq]
    exact ⟨_, rfl, rfl⟩

/-- Whatever the store and the input, one iteration either returns an error
and leaves the store as it is, or writes the record of its own key with the
concatenation of a duplicate-free list of fixed-width identifiers, at most
`MAX_NODEIDS_PER_DEP` of them. -/
theorem publishDepHash_cases (rt : Runtime) (db : Db) (u : Int) (f : GoString)
    (new : List GoString) :
    (∃ e, publishDepHash rt db u f new = (db, some e)) ∨
    (∃ ids : List GoString, publishDepHash rt db u f new =
        (db.insertOrReplace u f (rt.now f) (concatNodeIds ids), none) ∧
      ids.Perm (mergedNodeIds db u f new) ∧
      f.length = DEP_HASH_HEX_SIZE ∧
      (∀ n ∈ new, n.length = NODEID_HASH_HEX_SIZE) ∧
      RecordAligned db u f ∧
      storedCount db u f + new.length ≤ MAX_NODEIDS_PER_DEP) := by
  unfold publishDepHash
  by_cases hf : f.length ≠ DEP_HASH_HEX_SIZE
  · left; rw [if_pos hf]; exact ⟨_, rfl⟩
  rw [if_neg hf]
  have hf := not_not.mp hf
  by_cases hlen : new.length > MAX_NODEIDS_PER_DEP
  · left; rw [if_pos hlen]; exact ⟨_, rfl⟩
  rw [if_neg hlen]
  cases hload : loadCurrentNodeIds db u f new with
  | error e => left; exact ⟨_, rfl⟩
  | ok cur =>
    obtain ⟨hcur, hal, hq⟩ := loadCurrentNodeIds_eq_ok db u f new cur hload
    dsimp only
    cases hadd : addNewNodeIds cur new with
    | error e => left; exact ⟨_, rfl⟩
    | ok ids =>
      obtain ⟨hids, hnew⟩ := addNewNodeIds_eq_ok new cur ids hadd
      right
      refine ⟨rt.rangeOrder f ids, rfl, ?_, hf, hnew, hal, ?_⟩
      · rw [hids, hcur]; exact rt.rangeOrder_perm f _
      · by_cases hrow : db.testResults u f = none
        · unfold storedCount; rw [hrow]; simp only [Nat.zero_add]; omega
        · exact hq hrow

/-! ## Lemmas on the effect of a publish on the store -/

theorem testResults_insertOrReplace_same (db : Db) (u : Int) (f : GoString) (t : Int)
    (blob : List Byte) :
    (db.insertOrReplace u f t blob).testResults u f = some ⟨t, blob⟩ := by
  simp [Db.insertOrReplace]

theorem testResults_insertOrReplace_other (db : Db) (u u' : Int) (f f' : GoString)
    (t : Int) (blob : List Byte) (h : ¬ (u' = u ∧ f' = f)) :
    (db.insertOrReplace u f t blob).testResults u' f' = db.testResults u' f' := by
  simp only [Db.insertOrReplace]
  rw [if_neg h]

theorem PublishTestHashes_cons_ok (rt : Runtime) (db db1 : Db) (u : Int) (f : GoString)
    (new : List GoString) (rest : List (GoString × List GoString))
    (h : publishDepHash rt db u f new = (db1, none)) :
    PublishTestHashes rt db u ((f, new) :: rest) = PublishTestHashes rt db1 u rest := by
  simp only [PublishTestHashes, h]

theorem PublishTestHashes_cons_error (rt : Runtime) (db db1 : Db) (u : Int) (f : GoString)
    (new : List GoString) (rest : List (GoString × List GoString)) (e : DbError)
    (h : publishDepHash rt db u f new = (db1, some e)) :
    PublishTestHashes rt db u ((f, new) :: rest) = (db1, some e) := by
  simp only [PublishTestHashes, h]

theorem appliedInCall_cons_ok (rt : Runtime) (db db1 : Db) (u : Int) (f : GoString)
    (new : List GoString) (rest : List (GoString × List GoString))
    (h : publishDepHash rt db u f new = (db1, none)) :
    appliedInCall rt db u ((f, new) :: rest) = ⟨u, f, new⟩ :: appliedInCall rt db1 u rest := by
  simp only [appliedInCall, h]

theorem appliedInCall_cons_error (rt : Runtime) (db db1 : Db) (u : Int) (f : GoString)
    (new : List GoString) (rest : List (GoString × List GoString)) (e : DbError)
    (h : publishDepHash rt db u f new = (db1, some e)) :
    appliedInCall rt db u ((f, new) :: rest) = [] := by
  simp only [appliedInCall, h]

/-- The identifiers on record after an accepted update of `(u, f)`: those
of the blob written for that key, and the ones on record before for every
other key. -/
theorem storedNodeIds_after_write (db : Db) (u u' : Int) (f f' : GoString) (t : Int)
    (ids : List GoString) (hids : ∀ x ∈ ids, x.length = NODEID_HASH_HEX_SIZE) :
    storedNodeIds (db.insertOrReplace u f t (concatNodeIds ids)) u' f' =
      if u' = u ∧ f' = f then ids else storedNodeIds db u' f' := by
  by_cases h : u' = u ∧ f' = f
  · obtain ⟨rfl, rfl⟩ := h
    simp only [storedNodeIds, testResults_insertOrReplace_same, and_self, if_true]
    exact decodeNodeIds_concatNodeIds ids hids
  · rw [if_neg h]
    simp only [storedNodeIds, testResults_insertOrReplace_other db u u' f f' t _ h]

theorem length_of_mem_perm_merged (db : Db) (u : Int) (f : GoString)
    (new ids : List GoString) (hperm : ids.Perm (mergedNodeIds db u f new))
    (hal : RecordAligned db u f) (hnew : ∀ n ∈ new, n.length = NODEID_HASH_HEX_SIZE) :
    ∀ x ∈ ids, x.length = NODEID_HASH_HEX_SIZE :=
  fun x hx => length_of_mem_mergedNodeIds db u f new hal hnew x (hperm.mem_iff.mp hx)

/-- Membership on record after one iteration that returned no error. -/
theorem publishDepHash_mem (rt : Runtime) (db db1 : Db) (u : Int) (f : GoString)
    (new : List GoString) (h : publishDepHash rt db u f new = (db1, none))
    (u' : Int) (f' x : GoString) :
    x ∈ storedNodeIds db1 u' f' ↔
      x ∈ storedNodeIds db u' f' ∨ (u' = u ∧ f' = f ∧ x ∈ new) := by
  rcases publishDepHash_cases rt db u f new with ⟨e, he⟩ | ⟨ids, hw, hperm, _, hnew, hal, _⟩
  · rw [he] at h; cases h
  · rw [hw] at h
    have hdb : db1 = db.insertOrReplace u f (rt.now f) (concatNodeIds ids) :=
      (Prod.mk.inj h).1.symm
    rw [hdb, storedNodeIds_after_write db u u' f f' _ ids
      (length_of_mem_perm_merged db u f new ids hperm hal hnew)]
    by_cases hk : u' = u ∧ f' = f
    · obtain ⟨rfl, rfl⟩ := hk
      simp only [and_self, if_true, true_and]
      rw [hperm.mem_iff, mem_mergedNodeIds]
    · rw [if_neg hk]
      constructor
      · intro hx; exact Or.inl hx
      · rintro (hx | ⟨h1, h2, _⟩)
        · exact hx
        · exact absurd ⟨h1, h2⟩ hk

/-- A record found after one iteration is the one found before, or is well
formed. -/
theorem publishDepHash_wellFormed (rt : Runtime) (db : Db) (u : Int) (f : GoString)
    (new : List GoString) (u' : Int) (f' : GoString) (row : TestResultRow)
    (hrow : (publishDepHash rt db u f new).1.testResults u' f' = some row) :
    db.testResults u' f' = some row ∨ WellFormedBlob row.nodeIds := by
  rcases publishDepHash_cases rt db u f new with ⟨e, he⟩ | ⟨ids, hw, hperm, _, hnew, hal, hq⟩
  · rw [he] at hrow; exact Or.inl hrow
  · rw [hw] at hrow
    by_cases hk : u' = u ∧ f' = f
    · obtain ⟨rfl, rfl⟩ := hk
      right
      rw [testResults_insertOrReplace_same] at hrow
      have hrow' : row.nodeIds = concatNodeIds ids := by
        cases hrow; rfl
      have hlen32 := length_of_mem_perm_merged db u' f' new ids hperm hal hnew
      rw [hrow']
      refine ⟨?_, ?_, ?_⟩
      · show (concatNodeIds ids).length % NODEID_HASH_HEX_SIZE = 0
        unfold concatNodeIds
        rw [length_flatten_nodeIds ids hlen32]
        exact Nat.mul_mod_right _ _
      · rw [decodeNodeIds_concatNodeIds ids hlen32]
        exact hperm.nodup_iff.mpr (nodup_mergedNodeIds db u' f' new)
      · rw [decodeNodeIds_concatNodeIds ids hlen32, hperm.length_eq]
        have h1 := length_mergedNodeIds_le db u' f' new
        have h2 := (storedNodeIds_aligned db u' f' hal).2
        omega
    · left
      rw [testResults_insertOrReplace_other db u u' f f' _ _ hk] at hrow
      exact hrow

/-- One iteration leaves the record of every other key as it was. -/
theorem publishDepHash_frame (rt : Runtime) (db : Db) (u : Int) (f : GoString)
    (new : List GoString) (u' : Int) (f' : GoString) (h : ¬ (u' = u ∧ f' = f)) :
    (publishDepHash rt db u f new).1.testResults u' f' = db.testResults u' f' := by
  rcases publishDepHash_cases rt db u f new with ⟨e, he⟩ | ⟨ids, hw, _⟩
  · rw [he]
  · rw [hw]; exact testResults_insertOrReplace_other db u u' f f' _ _ h

/-- One iteration that returns an error leaves the store as it was. -/
theorem publishDepHash_error (rt : Runtime) (db db1 : Db) (u : Int) (f : GoString)
    (new : List GoString) (e : DbError)
    (h : publishDepHash rt db u f new = (db1, some e)) : db1 = db := by
  rcases publishDepHash_cases rt db u f new with ⟨e', he⟩ | ⟨ids, hw, _⟩
  · rw [he] at h; exact (Prod.mk.inj h).1.symm
  · rw [hw] at h; cases h

theorem PublishTestHashes_frame (rt : Runtime) (u : Int)
    (tests : List (GoString × List GoString)) (u' : Int) (f' : GoString)
    (h : u' ≠ u ∨ ∀ e ∈ tests, e.1 ≠ f') :
    ∀ db : Db, (PublishTestHashes rt db u tests).1.testResults u' f' = db.testResults u' f' := by
  induction tests with
  | nil => intro db; rfl
  | cons hd rest ih =>
    intro db
    obtain ⟨f, new⟩ := hd
    have hrest : u' ≠ u ∨ ∀ e ∈ rest, e.1 ≠ f' := by
      rcases h with h | h
      · exact Or.inl h
      · exact Or.inr (fun e he => h e (List.mem_cons_of_mem _ he))
    have hk : ¬ (u' = u ∧ f' = f) := by
      rintro ⟨h1, h2⟩
      rcases h with h | h
      · exact h h1
      · exact h (f, new) (List.mem_cons_self _ _) h2.symm
    have hstep := publishDepHash_frame rt db u f new u' f' hk
    cases hres : publishDepHash rt db u f new with
    | mk db1 err =>
      rw [hres] at hstep
      cases err with
      | none =>
        rw [PublishTestHashes_cons_ok rt db db1 u f new rest hres, ih hrest db1]
        exact hstep
      | some e =>
        rw [PublishTestHashes_cons_error rt db db1 u f new rest e hres]
        exact hstep

theorem PublishTestHashes_mem (rt : Runtime) (u : Int)
    (tests : List (GoString × List GoString)) (u' : Int) (f' x : GoString) :
    ∀ db : Db, x ∈ storedNodeIds (PublishTestHashes rt db u tests).1 u' f' ↔
      x ∈ storedNodeIds db u' f' ∨
        ∃ upd ∈ appliedInCall rt db u tests,
          upd.userId = u' ∧ upd.depHash = f' ∧ x ∈ upd.nodeIds := by
  induction tests with
  | nil => intro db; simp [PublishTestHashes, appliedInCall]
  | cons hd rest ih =>
    intro db
    obtain ⟨f, new⟩ := hd
    cases hres : publishDepHash rt db u f new with
    | mk db1 err =>
      cases err with
      | none =>
        rw [PublishTestHashes_cons_ok rt db db1 u f new rest hres,
          appliedInCall_cons_ok rt db db1 u f new rest hres, ih db1,
          publishDepHash_mem rt db db1 u f new hres u' f' x]
        simp only [List.mem_cons, exists_eq_or_imp]
        constructor
        · rintro ((h | ⟨h1, h2, h3⟩) | h)
          · exact Or.inl h
          · exact Or.inr (Or.inl ⟨h1.symm, h2.symm, h3⟩)
          · exact Or.inr (Or.inr h)
        · rintro (h | ⟨h1, h2, h3⟩ | h)
          · exact Or.inl (Or.inl h)
          · exact Or.inl (Or.inr ⟨h1.symm, h2.symm, h3⟩)
          · exact Or.inr h
      | some e =>
        have hdb := publishDepHash_error rt db db1 u f new e hres
        rw [PublishTestHashes_cons_error rt db db1 u f new rest e hres,
          appliedInCall_cons_error rt db db1 u f new rest e hres, hdb]
        simp

theorem PublishTestHashes_wellFormed (rt : Runtime) (u : Int)
    (tests : List (GoString × List GoString)) (u' : Int) (f' : GoString)
    (row : TestResultRow) :
    ∀ db : Db, (PublishTestHashes rt db u tests).1.testResults u' f' = some row →
      db.testResults u' f' = some row ∨ WellFormedBlob row.nodeIds := by
  induction tests with
  | nil => intro db h; exact Or.inl h
  | cons hd rest ih =>
    intro db h
    obtain ⟨f, new⟩ := hd
    cases hres : publishDepHash rt db u f new with
    | mk db1 err =>
      cases err with
      | none =>
        rw [PublishTestHashes_cons_ok rt db db1 u f new rest hres] at h
        rcases ih db1 h with h1 | h1
        · have hstep := publishDepHash_wellFormed rt db u f new u' f' row
          rw [hres] at hstep
          exact hstep h1
        · exact Or.inr h1
      | some e =>
        have hdb := publishDepHash_error rt db db1 u f new e hres
        rw [PublishTestHashes_cons_error rt db db1 u f new rest e hres, hdb] at h
        exact Or.inl h

theorem StoreWellFormed_empty : StoreWellFormed Db.empty := by
  intro u f row h
  simp [Db.empty] at h

theorem StoreWellFormed_publish (rt : Runtime) (db : Db) (u : Int)
    (tests : List (GoString × List GoString)) (h : StoreWellFormed db) :
    StoreWellFormed (PublishTestHashes rt db u tests).1 := by
  intro u' f' row hrow
  rcases PublishTestHashes_wellFormed rt u tests u' f' row db hrow with h1 | h1
  · exact h u' f' row h1
  · exact h1

theorem StoreWellFormed_runPublishes (calls : List PublishCall) :
    ∀ db : Db, StoreWellFormed db → StoreWellFormed (runPublishes db calls) := by
  induction calls with
  | nil => intro db h; exact h
  | cons c rest ih =>
    intro db h
    exact ih _ (StoreWellFormed_publish c.rt db c.userId c.tests h)

theorem runPublishes_mem (calls : List PublishCall) (u' : Int) (f' x : GoString) :
    ∀ db : Db, x ∈ storedNodeIds (runPublishes db calls) u' f' ↔
      x ∈ storedNodeIds db u' f' ∨
        ∃ upd ∈ appliedUpdates db calls,
          upd.userId = u' ∧ upd.depHash = f' ∧ x ∈ upd.nodeIds := by
  induction calls with
  | nil => intro db; simp [runPublishes, appliedUpdates]
  | cons c rest ih =>
    intro db
    simp only [runPublishes, appliedUpdates, ih, PublishTestHashes_mem, List.mem_append]
    constructor
    · rintro ((h | ⟨upd, h1, h2⟩) | ⟨upd, h1, h2⟩)
      · exact Or.inl h
      · exact Or.inr ⟨upd, Or.inl h1, h2⟩
      · exact Or.inr ⟨upd, Or.inr h1, h2⟩
    · rintro (h | ⟨upd, h1 | h1, h2⟩)
      · exact Or.inl (Or.inl h)
      · exact Or.inl (Or.inr ⟨upd, h1, h2⟩)
      · exact Or.inr ⟨upd, h1, h2⟩

/-! ## Lemmas on `QueryPassedTestHashes` -/

/-- A query of one fingerprint of the right length whose record is aligned
returns the identifiers on record. -/
theorem query_single (db : Db) (u : Int) (f : GoString)
    (hf : f.length = DEP_HASH_HEX_SIZE) (hal : RecordAligned db u f) :
    QueryPassedTestHashes db u [f] = .ok [storedNodeIds db u f] := by
  unfold QueryPassedTestHashes storedNodeIds
  simp only [queryLoop, hf, ne_eq, not_true_eq_false, if_false]
  cases hrow : db.testResults u f with
  | none => rfl
  | some row =>
    have h0 := hal row hrow
    simp only [h0, not_true_eq_false, if_false]

/-- A query of one fingerprint reads the store at that key only. -/
theorem query_single_congr (db db' : Db) (u : Int) (f : GoString)
    (h : db'.testResults u f = db.testResults u f) :
    QueryPassedTestHashes db' u [f] = QueryPassedTestHashes db u [f] := by
  unfold QueryPassedTestHashes
  simp only [queryLoop, h]

/-! ## Properties of publish and query -/

theorem PublishTestHashes_single (rt : Runtime) (db : Db) (u : Int) (f : GoString)
    (new : List GoString) :
    PublishTestHashes rt db u [(f, new)] = publishDepHash rt db u f new := by
  cases hres : publishDepHash rt db u f new with
  | mk db1 err =>
    cases err with
    | none => rw [PublishTestHashes_cons_ok rt db db1 u f new [] hres]; rfl
    | some e => rw [PublishTestHashes_cons_error rt db db1 u f new [] e hres]

theorem recordAligned_of_wellFormed (db : Db) (h : StoreWellFormed db) (u : Int)
    (f : GoString) : RecordAligned db u f :=
  fun row hrow => (h u f row hrow).1

theorem nodup_storedNodeIds (db : Db) (h : StoreWellFormed db) (u : Int) (f : GoString) :
    (storedNodeIds db u f).Nodup := by
  unfold storedNodeIds
  cases hrow : db.testResults u f with
  | none => exact List.nodup_nil
  | some row => exact (h u f row hrow).2.1

/-- C1: starting from the empty store, after any sequence of
`PublishTestHashes` calls, `QueryPassedTestHashes` of one fingerprint of
length 64 succeeds and returns one entry, without duplicates, whose elements
are exactly the identifiers of the updates of that tenant and fingerprint
that were applied without error, however many calls contributed them. (The
statement does not need the calls to be valid: an entry with a wrong length
fails and is not among the applied updates.) -/
theorem query_after_publishes_is_union (calls : List PublishCall) (u : Int)
    (f : GoString) (hf : f.length = DEP_HASH_HEX_SIZE) :
    ∃ ids, QueryPassedTestHashes (runPublishes Db.empty calls) u [f] = .ok [ids] ∧
      ids.Nodup ∧
      ∀ x, x ∈ ids ↔ ∃ upd ∈ appliedUpdates Db.empty calls,
        upd.userId = u ∧ upd.depHash = f ∧ x ∈ upd.nodeIds := by
  have hwf := StoreWellFormed_runPublishes calls Db.empty StoreWellFormed_empty
  refine ⟨storedNodeIds (runPublishes Db.empty calls) u f,
    query_single _ u f hf (recordAligned_of_wellFormed _ hwf u f),
    nodup_storedNodeIds _ hwf u f, ?_⟩
  intro x
  rw [runPublishes_mem calls u f x Db.empty]
  simp [storedNodeIds, Db.empty]

/-- C1 on two calls of tenant 1 that publish overlapping lists for one
fingerprint, the second under a runtime that visits the set in reverse. -/
theorem query_after_publishes_is_union_witness :
    (sampleDepHash 7).length = DEP_HASH_HEX_SIZE ∧
    ∃ ids, QueryPassedTestHashes (runPublishes Db.empty sampleCalls) 1 [sampleDepHash 7]
        = .ok [ids] ∧
      ids.Nodup ∧
      ∀ x, x ∈ ids ↔ ∃ upd ∈ appliedUpdates Db.empty sampleCalls,
        upd.userId = 1 ∧ upd.depHash = sampleDepHash 7 ∧ x ∈ upd.nodeIds :=
  ⟨rfl, query_after_publishes_is_union sampleCalls 1 (sampleDepHash 7) rfl⟩

/-- C4: a `PublishTestHashes(u, tests)` call, successful or not, leaves
the result of `QueryPassedTestHashes(u', [f'])` as it was for every pair
such that `u'` differs from `u` or `f'` is not a key of `tests`. -/
theorem publish_frame_query (rt : Runtime) (db : Db) (u : Int)
    (tests : List (GoString × List GoString)) (u' : Int) (f' : GoString)
    (h : u' ≠ u ∨ ∀ e ∈ tests, e.1 ≠ f') :
    QueryPassedTestHashes (PublishTestHashes rt db u tests).1 u' [f'] =
      QueryPassedTestHashes db u' [f'] :=
  query_single_congr db _ u' f' (PublishTestHashes_frame rt u tests u' f' h db)

/-- C4 on a publish of tenant 1 and a query of tenant 2 for the same
fingerprint. -/
theorem publish_frame_query_witness :
    ((2 : Int) ≠ 1 ∨ ∀ e ∈ [(sampleDepHash 7, [sampleNodeId 1])], e.1 ≠ sampleDepHash 7) ∧
    QueryPassedTestHashes
        (PublishTestHashes (Runtime.plain 0) (runPublishes Db.empty sampleCalls) 1
          [(sampleDepHash 7, [sampleNodeId 1])]).1 2 [sampleDepHash 7] =
      QueryPassedTestHashes (runPublishes Db.empty sampleCalls) 2 [sampleDepHash 7] :=
  ⟨Or.inl (by decide),
    publish_frame_query (Runtime.plain 0) (runPublishes Db.empty sampleCalls) 1
      [(sampleDepHash 7, [sampleNodeId 1])] 2 (sampleDepHash 7) (Or.inl (by decide))⟩

/-- C10: whatever the store and the call, every record found after a
`PublishTestHashes` call is the record found before it or a well-formed one
(length a multiple of 32, no identifier twice, at most 32768 identifiers);
hence every record of a store reached from the empty store by publish calls
is well formed. -/
theorem publish_writes_wellFormed_records :
    (∀ (rt : Runtime) (db : Db) (u : Int) (tests : List (GoString × List GoString))
        (u' : Int) (f' : GoString) (row : TestResultRow),
        (PublishTestHashes rt db u tests).1.testResults u' f' = some row →
          db.testResults u' f' = some row ∨ WellFormedBlob row.nodeIds) ∧
    (∀ calls : List PublishCall, StoreWellFormed (runPublishes Db.empty calls)) :=
  ⟨fun rt db u tests u' f' row h => PublishTestHashes_wellFormed rt u tests u' f' row db h,
    fun calls => StoreWellFormed_runPublishes calls Db.empty StoreWellFormed_empty⟩

/-- C10 on a publish that repeats one identifier: the record written holds
it once. -/
theorem publish_writes_wellFormed_records_witness :
    (PublishTestHashes (Runtime.plain 0) Db.empty 1
        [(sampleDepHash 7, [sampleNodeId 1, sampleNodeId 1])]).1.testResults 1 (sampleDepHash 7)
      = some ⟨0, sampleNodeId 1⟩ ∧
    (Db.empty.testResults 1 (sampleDepHash 7) = some ⟨0, sampleNodeId 1⟩ ∨
      WellFormedBlob (sampleNodeId 1)) :=
  ⟨rfl, publish_writes_wellFormed_records.1 (Runtime.plain 0) Db.empty 1
    [(sampleDepHash 7, [sampleNodeId 1, sampleNodeId 1])] 1 (sampleDepHash 7)
    ⟨0, sampleNodeId 1⟩ rfl⟩

/-! ## The ceiling on one record -/

theorem length_numberedNodeId (n : Nat) :
    (numberedNodeId n).length = NODEID_HASH_HEX_SIZE := by
  simp [numberedNodeId, NODEID_HASH_HEX_SIZE]

theorem numberedNodeId_inj (n m : Nat) (hn : n < 65536) (hm : m < 65536)
    (h : numberedNodeId n = numberedNodeId m) : n = m := by
  unfold numberedNodeId at h
  have h2 := List.append_cancel_left h
  simp only [List.cons.injEq, and_true] at h2
  have ha : (n / 256) % 256 = (m / 256) % 256 := congrArg Fin.val h2.1
  have hb : (n % 256) % 256 = (m % 256) % 256 := congrArg Fin.val h2.2
  omega

theorem nodup_numberedNodeIds (k : Nat) (hk : k ≤ 65536) : (numberedNodeIds k).Nodup := by
  unfold numberedNodeIds
  refine List.Nodup.map_on ?_ (List.nodup_range k)
  intro x hx y hy hxy
  have hx' := List.mem_range.mp hx
  have hy' := List.mem_range.mp hy
  exact numberedNodeId_inj x y (by omega) (by omega) hxy

theorem length_of_mem_numberedNodeIds (k : Nat) :
    ∀ x ∈ numberedNodeIds k, x.length = NODEID_HASH_HEX_SIZE := by
  intro x hx
  unfold numberedNodeIds at hx
  obtain ⟨n, _, rfl⟩ := List.mem_map.mp hx
  exact length_numberedNodeId n

theorem length_numberedNodeIds (k : Nat) : (numberedNodeIds k).length = k := by
  simp [numberedNodeIds]

theorem fullDb_row : fullDb.testResults 1 (sampleDepHash 7) = some fullRow :=
  testResults_insertOrReplace_same Db.empty 1 (sampleDepHash 7) 0 fullBlob

theorem fullRow_length :
    fullRow.nodeIds.length = NODEID_HASH_HEX_SIZE * MAX_NODEIDS_PER_DEP := by
  dsimp only [fullRow, fullBlob, concatNodeIds]
  rw [length_flatten_nodeIds _ (length_of_mem_numberedNodeIds _), length_numberedNodeIds]

theorem storedCount_congr (db db' : Db) (u : Int) (f : GoString)
    (h : db'.testResults u f = db.testResults u f) :
    storedCount db' u f = storedCount db u f := by
  unfold storedCount; rw [h]

theorem recordAligned_congr (db db' : Db) (u : Int) (f : GoString)
    (h : db'.testResults u f = db.testResults u f) (hal : RecordAligned db u f) :
    RecordAligned db' u f := by
  intro row hrow; rw [h] at hrow; exact hal row hrow

/-- A call whose map has an entry over the quota for `(u, f)` returns an
error and leaves the record of `(u, f)` as it was, wherever `range` visits
that entry. -/
theorem PublishTestHashes_rejected_entry (rt : Runtime) (u : Int) (f : GoString)
    (new : List GoString) (hf : f.length = DEP_HASH_HEX_SIZE) :
    ∀ (tests : List (GoString × List GoString)) (db : Db),
      (tests.map Prod.fst).Nodup → (f, new) ∈ tests → RecordAligned db u f →
      MAX_NODEIDS_PER_DEP < storedCount db u f + new.length →
      (PublishTestHashes rt db u tests).2 ≠ none ∧
        (PublishTestHashes rt db u tests).1.testResults u f = db.testResults u f := by
  intro tests
  induction tests with
  | nil => intro db _ hmem; simp at hmem
  | cons hd rest ih =>
    intro db hnd hmem hal hq
    obtain ⟨g, l⟩ := hd
    simp only [List.map_cons, List.nodup_cons] at hnd
    rcases List.mem_cons.mp hmem with heq | hrest
    · obtain ⟨rfl, rfl⟩ := Prod.mk.inj heq
      obtain ⟨e, he, _⟩ := publishDepHash_reject rt db u f new hf hal hq
      rw [PublishTestHashes_cons_error rt db db u f new rest e he]
      exact ⟨by simp, rfl⟩
    · have hne : ¬ (u = u ∧ f = g) := by
        rintro ⟨_, rfl⟩
        exact hnd.1 (List.mem_map.mpr ⟨(f, new), hrest, rfl⟩)
      have hstep := publishDepHash_frame rt db u g l u f hne
      cases hres : publishDepHash rt db u g l with
      | mk db1 err =>
        rw [hres] at hstep
        cases err with
        | none =>
          rw [PublishTestHashes_cons_ok rt db db1 u g l rest hres]
          have := ih db1 hnd.2 hrest (recordAligned_congr db db1 u f hstep hal)
            (by rw [storedCount_congr db db1 u f hstep]; exact hq)
          exact ⟨this.1, this.2.trans hstep⟩
        | some e =>
          rw [PublishTestHashes_cons_error rt db db1 u g l rest e hres]
          exact ⟨by simp, hstep⟩

/-- C2: for a fingerprint (of length 64) with no record, a publish of
exactly 32768 pairwise distinct identifiers of length 32 succeeds and the
record then holds exactly these; for a record that holds 32768 identifiers,
a publish of a non-empty list for it (in particular of one identifier not
in the record) fails with a quota error and leaves the store, hence the
record, as it was, also when the call names other fingerprints. -/
theorem publish_at_ceiling (rt : Runtime) (u : Int) (f : GoString)
    (hf : f.length = DEP_HASH_HEX_SIZE) :
    (∀ (db : Db) (ids : List GoString), db.testResults u f = none →
        ids.length = MAX_NODEIDS_PER_DEP → ids.Nodup →
        (∀ n ∈ ids, n.length = NODEID_HASH_HEX_SIZE) →
        (PublishTestHashes rt db u [(f, ids)]).2 = none ∧
          (storedNodeIds (PublishTestHashes rt db u [(f, ids)]).1 u f).Perm ids) ∧
    (∀ (db : Db) (row : TestResultRow) (new : List GoString),
        db.testResults u f = some row →
        row.nodeIds.length = NODEID_HASH_HEX_SIZE * MAX_NODEIDS_PER_DEP → new ≠ [] →
        (∃ e, PublishTestHashes rt db u [(f, new)] = (db, some e) ∧ e.isQuota = true) ∧
          (∀ tests : List (GoString × List GoString),
            (tests.map Prod.fst).Nodup → (f, new) ∈ tests →
            (PublishTestHashes rt db u tests).2 ≠ none ∧
              (PublishTestHashes rt db u tests).1.testResults u f = some row)) := by
  constructor
  · intro db ids hnone hlen hnd hids
    have hal : RecordAligned db u f := by
      intro row hrow; rw [hnone] at hrow; cases hrow
    have hcnt : storedCount db u f = 0 := by unfold storedCount; rw [hnone]
    have hstored : storedNodeIds db u f = [] := by unfold storedNodeIds; rw [hnone]
    have hacc := publishDepHash_accept rt db u f ids hf hids hal (by rw [hcnt, hlen]; omega)
    rw [PublishTestHashes_single, hacc]
    refine ⟨rfl, ?_⟩
    have h32 := length_of_mem_perm_merged db u f ids _ (rt.rangeOrder_perm f _) hal hids
    simp only [storedNodeIds_after_write db u u f f _ _ h32, and_self, if_true]
    refine (rt.rangeOrder_perm f _).trans ?_
    rw [List.perm_ext_iff_of_nodup (nodup_mergedNodeIds db u f ids) hnd]
    intro a
    rw [mem_mergedNodeIds, hstored]
    simp
  · intro db row new hrow hlen hne
    have hal : RecordAligned db u f := by
      intro row' hrow'
      rw [hrow] at hrow'
      cases hrow'
      rw [hlen]; exact Nat.mul_mod_right _ _
    have hcnt : storedCount db u f = MAX_NODEIDS_PER_DEP := by
      unfold storedCount; rw [hrow]
      show row.nodeIds.length / NODEID_HASH_HEX_SIZE = MAX_NODEIDS_PER_DEP
      rw [hlen]; exact Nat.mul_div_cancel_left _ (by decide)
    have hpos : 0 < new.length := List.length_pos.mpr hne
    have hq : MAX_NODEIDS_PER_DEP < storedCount db u f + new.length := by omega
    constructor
    · obtain ⟨e, he, hquota⟩ := publishDepHash_reject rt db u f new hf hal hq
      exact ⟨e, by rw [PublishTestHashes_single, he], hquota⟩
    · intro tests hnd hmem
      have := PublishTestHashes_rejected_entry rt u f new hf tests db hnd hmem hal hq
      exact ⟨this.1, this.2.trans hrow⟩

/-- C2 on the 32768 numbered identifiers: they are accepted on the empty
store, and one more identifier is refused on a record that holds them. -/
theorem publish_at_ceiling_witness :
    (sampleDepHash 7).length = DEP_HASH_HEX_SIZE ∧
    ((PublishTestHashes (Runtime.plain 0) Db.empty 1
        [(sampleDepHash 7, numberedNodeIds MAX_NODEIDS_PER_DEP)]).2 = none ∧
      (storedNodeIds (PublishTestHashes (Runtime.plain 0) Db.empty 1
        [(sampleDepHash 7, numberedNodeIds MAX_NODEIDS_PER_DEP)]).1 1 (sampleDepHash 7)).Perm
        (numberedNodeIds MAX_NODEIDS_PER_DEP)) ∧
    ((∃ e, PublishTestHashes (Runtime.plain 0) fullDb 1
          [(sampleDepHash 7, [numberedNodeId MAX_NODEIDS_PER_DEP])] = (fullDb, some e) ∧
        e.isQuota = true) ∧
      (∀ tests : List (GoString × List GoString),
        (tests.map Prod.fst).Nodup →
        (sampleDepHash 7, [numberedNodeId MAX_NODEIDS_PER_DEP]) ∈ tests →
        (PublishTestHashes (Runtime.plain 0) fullDb 1 tests).2 ≠ none ∧
          (PublishTestHashes (Runtime.plain 0) fullDb 1 tests).1.testResults 1 (sampleDepHash 7)
            = some fullRow)) :=
  ⟨rfl,
    (publish_at_ceiling (Runtime.plain 0) 1 (sampleDepHash 7) rfl).1 Db.empty
      (numberedNodeIds MAX_NODEIDS_PER_DEP) rfl (length_numberedNodeIds _)
      (nodup_numberedNodeIds _ (by decide)) (length_of_mem_numberedNodeIds _),
    (publish_at_ceiling (Runtime.plain 0) 1 (sampleDepHash 7) rfl).2 fullDb fullRow
      [numberedNodeId MAX_NODEIDS_PER_DEP] fullDb_row fullRow_length (List.cons_ne_nil _ _)⟩

/-! ## The quota rule -/

theorem unionSize_le (db : Db) (u : Int) (f : GoString) (new : List GoString) :
    unionSize db u f new ≤ (storedNodeIds db u f).length + new.length := by
  unfold unionSize
  have h1 := Finset.card_union_le (storedNodeIds db u f).toFinset new.toFinset
  have h2 := List.toFinset_card_le (storedNodeIds db u f)
  have h3 := List.toFinset_card_le new
  omega

/-- C3 (as amended): for a fingerprint of length 64, new identifiers of
length 32 and a record, if any, whose blob length is a multiple of 32, the
update is rejected for quota reasons if and only if the number of
identifiers on record plus the length of the new list, repetitions and
identifiers already on record counted, exceeds 32768; it is accepted when
that sum is at most 32768, and it is rejected whenever the union of the set
on record with the new identifiers has more than 32768 elements. -/
theorem quota_counts_stored_plus_new (rt : Runtime) (db : Db) (u : Int) (f : GoString)
    (new : List GoString) (hf : f.length = DEP_HASH_HEX_SIZE)
    (hnew : ∀ n ∈ new, n.length = NODEID_HASH_HEX_SIZE) (hal : RecordAligned db u f) :
    (QuotaRejected rt db u f new ↔
      MAX_NODEIDS_PER_DEP < storedCount db u f + new.length) ∧
    (storedCount db u f + new.length ≤ MAX_NODEIDS_PER_DEP →
      (PublishTestHashes rt db u [(f, new)]).2 = none) ∧
    (MAX_NODEIDS_PER_DEP < unionSize db u f new → QuotaRejected rt db u f new) := by
  have hacc : storedCount db u f + new.length ≤ MAX_NODEIDS_PER_DEP →
      (PublishTestHashes rt db u [(f, new)]).2 = none := by
    intro hq
    rw [PublishTestHashes_single, publishDepHash_accept rt db u f new hf hnew hal hq]
  have hrej : MAX_NODEIDS_PER_DEP < storedCount db u f + new.length →
      QuotaRejected rt db u f new := by
    intro hq
    obtain ⟨e, he, hquota⟩ := publishDepHash_reject rt db u f new hf hal hq
    exact ⟨e, by rw [PublishTestHashes_single, he], hquota⟩
  refine ⟨⟨?_, hrej⟩, hacc, ?_⟩
  · rintro ⟨e, he, _⟩
    by_contra hq
    rw [hacc (by omega)] at he
    cases he
  · intro hu
    apply hrej
    have h1 := unionSize_le db u f new
    have h2 := (storedNodeIds_aligned db u f hal).2
    omega

/-- C3 as amended, on a list that repeats one identifier on the empty store. -/
theorem quota_counts_stored_plus_new_witness :
    (sampleDepHash 7).length = DEP_HASH_HEX_SIZE ∧
    (∀ n ∈ [sampleNodeId 1, sampleNodeId 1], n.length = NODEID_HASH_HEX_SIZE) ∧
    RecordAligned Db.empty 1 (sampleDepHash 7) ∧
    (QuotaRejected (Runtime.plain 0) Db.empty 1 (sampleDepHash 7)
        [sampleNodeId 1, sampleNodeId 1] ↔
      MAX_NODEIDS_PER_DEP < storedCount Db.empty 1 (sampleDepHash 7) +
        [sampleNodeId 1, sampleNodeId 1].length) ∧
    (storedCount Db.empty 1 (sampleDepHash 7) + [sampleNodeId 1, sampleNodeId 1].length
        ≤ MAX_NODEIDS_PER_DEP →
      (PublishTestHashes (Runtime.plain 0) Db.empty 1
        [(sampleDepHash 7, [sampleNodeId 1, sampleNodeId 1])]).2 = none) ∧
    (MAX_NODEIDS_PER_DEP < unionSize Db.empty 1 (sampleDepHash 7)
        [sampleNodeId 1, sampleNodeId 1] →
      QuotaRejected (Runtime.plain 0) Db.empty 1 (sampleDepHash 7)
        [sampleNodeId 1, sampleNodeId 1]) :=
  ⟨rfl, (by intro n hn; simp at hn; rw [hn]; rfl),
    (by intro row hrow; cases hrow),
    quota_counts_stored_plus_new (Runtime.plain 0) Db.empty 1 (sampleDepHash 7)
      [sampleNodeId 1, sampleNodeId 1] rfl (by intro n hn; simp at hn; rw [hn]; rfl)
      (by intro row hrow; cases hrow)⟩

/-- C3 (counterexample): on the empty store, an update that repeats one
identifier of length 32 on 32769 entries is rejected for quota reasons,
although the union of the (empty) set on record with the new identifiers
has one element. -/
theorem quota_union_counterexample :
    (sampleDepHash 7).length = DEP_HASH_HEX_SIZE ∧
    (∀ n ∈ repeatedNodeIds, n.length = NODEID_HASH_HEX_SIZE) ∧
    unionSize Db.empty 1 (sampleDepHash 7) repeatedNodeIds = 1 ∧
    ¬ (QuotaRejected (Runtime.plain 0) Db.empty 1 (sampleDepHash 7) repeatedNodeIds ↔
      MAX_NODEIDS_PER_DEP < unionSize Db.empty 1 (sampleDepHash 7) repeatedNodeIds) := by
  have hlen : repeatedNodeIds.length = MAX_NODEIDS_PER_DEP + 1 := by
    unfold repeatedNodeIds; exact List.length_replicate _ _
  have hvalid : ∀ n ∈ repeatedNodeIds, n.length = NODEID_HASH_HEX_SIZE := by
    intro n hn
    unfold repeatedNodeIds at hn
    rw [List.eq_of_mem_replicate hn]; rfl
  have hal : RecordAligned Db.empty 1 (sampleDepHash 7) := by
    intro row hrow; cases hrow
  have hcnt : storedCount Db.empty 1 (sampleDepHash 7) = 0 := rfl
  have hsize : unionSize Db.empty 1 (sampleDepHash 7) repeatedNodeIds = 1 := by
    have hstored : storedNodeIds Db.empty 1 (sampleDepHash 7) = [] := rfl
    unfold unionSize
    rw [hstored]
    unfold repeatedNodeIds
    rw [List.toFinset_replicate_of_ne_zero (Nat.succ_ne_zero _)]
    simp
  have hrej : QuotaRejected (Runtime.plain 0) Db.empty 1 (sampleDepHash 7) repeatedNodeIds := by
    obtain ⟨e, he, hquota⟩ := publishDepHash_reject (Runtime.plain 0) Db.empty 1
      (sampleDepHash 7) repeatedNodeIds rfl hal (by rw [hcnt, hlen]; omega)
    exact ⟨e, by rw [PublishTestHashes_single, he], hquota⟩
  refine ⟨rfl, hvalid, hsize, ?_⟩
  intro h
  have := h.mp hrej
  rw [hsize] at this
  exact absurd this (by decide)

/-! ## Results and errors of a query -/

theorem queryLoop_ok (db : Db) (u : Int) (total : Nat) (depHashes : List GoString)
    (hlen : ∀ d ∈ depHashes, d.length = DEP_HASH_HEX_SIZE)
    (hal : ∀ d ∈ depHashes, RecordAligned db u d) :
    queryLoop db u total depHashes = .ok (depHashes.map (storedNodeIds db u)) := by
  induction depHashes with
  | nil => rfl
  | cons d rest ih =>
    have hd : d.length = DEP_HASH_HEX_SIZE := hlen d (List.mem_cons_self _ _)
    have hrest := ih (fun x hx => hlen x (List.mem_cons_of_mem _ hx))
      (fun x hx => hal x (List.mem_cons_of_mem _ hx))
    simp only [queryLoop, hd, ne_eq, not_true_eq_false, if_false, hrest, List.map_cons,
      storedNodeIds]
    cases hrow : db.testResults u d with
    | none => rfl
    | some row =>
      have h0 := hal d (List.mem_cons_self _ _) row hrow
      simp only [h0, not_true_eq_false, if_false]

theorem queryLoop_corrupt (db : Db) (u : Int) (total : Nat) (depHashes : List GoString)
    (hlen : ∀ d ∈ depHashes, d.length = DEP_HASH_HEX_SIZE)
    (hbad : ∃ d ∈ depHashes, ∃ row, db.testResults u d = some row ∧
      row.nodeIds.length % NODEID_HASH_HEX_SIZE ≠ 0) :
    ∃ d ∈ depHashes, queryLoop db u total depHashes =
      .error (.failedToGetNodeIds u d (.invalidNodeIdsLength total u d)) := by
  induction depHashes with
  | nil => obtain ⟨d, hd, _⟩ := hbad; simp at hd
  | cons d rest ih =>
    have hd : d.length = DEP_HASH_HEX_SIZE := hlen d (List.mem_cons_self _ _)
    have hlen' : ∀ x ∈ rest, x.length = DEP_HASH_HEX_SIZE :=
      fun x hx => hlen x (List.mem_cons_of_mem _ hx)
    by_cases hhere : ∃ row, db.testResults u d = some row ∧
        row.nodeIds.length % NODEID_HASH_HEX_SIZE ≠ 0
    · obtain ⟨row, hrow, hmod⟩ := hhere
      refine ⟨d, List.mem_cons_self _ _, ?_⟩
      simp only [queryLoop, hd, ne_eq, not_true_eq_false, if_false, hrow]
      rw [if_pos hmod]
    · have hbad' : ∃ x ∈ rest, ∃ row, db.testResults u x = some row ∧
          row.nodeIds.length % NODEID_HASH_HEX_SIZE ≠ 0 := by
        obtain ⟨x, hx, row, hrow, hmod⟩ := hbad
        rcases List.mem_cons.mp hx with rfl | hx
        · exact absurd ⟨row, hrow, hmod⟩ hhere
        · exact ⟨x, hx, row, hrow, hmod⟩
      obtain ⟨x, hx, hres⟩ := ih hlen' hbad'
      refine ⟨x, List.mem_cons_of_mem _ hx, ?_⟩
      simp only [queryLoop, hd, ne_eq, not_true_eq_false, if_false, hres]
      cases hrow : db.testResults u d with
      | none => rfl
      | some row =>
        have h0 : row.nodeIds.length % NODEID_HASH_HEX_SIZE = 0 := by
          by_contra hne
          exact hhere ⟨row, hrow, hne⟩
        simp only [h0, not_true_eq_false, if_false]

/-- C5: for fingerprints that all have length 64, if every blob looked up
has a length that is a multiple of 32, `QueryPassedTestHashes` succeeds with
a list as long as the input whose entry `i` is empty when fingerprint `i`
has no record and otherwise is the blob cut into 32-byte identifiers in blob
order (they all have length 32 and their concatenation is the blob); if some
blob looked up has a length that is not a multiple of 32, the query fails. -/
theorem query_returns_decoded_blobs (db : Db) (u : Int) (depHashes : List GoString)
    (hlen : ∀ d ∈ depHashes, d.length = DEP_HASH_HEX_SIZE) :
    ((∀ d ∈ depHashes, RecordAligned db u d) →
      ∃ res, QueryPassedTestHashes db u depHashes = .ok res ∧
        res.length = depHashes.length ∧
        ∀ (i : Nat) (d : GoString), depHashes[i]? = some d →
          ∃ ids, res[i]? = some ids ∧
            (db.testResults u d = none → ids = []) ∧
            (∀ row, db.testResults u d = some row →
              concatNodeIds ids = row.nodeIds ∧
              ∀ x ∈ ids, x.length = NODEID_HASH_HEX_SIZE)) ∧
    ((∃ d ∈ depHashes, ∃ row, db.testResults u d = some row ∧
        row.nodeIds.length % NODEID_HASH_HEX_SIZE ≠ 0) →
      ∃ d ∈ depHashes, QueryPassedTestHashes db u depHashes =
        .error (.failedToGetNodeIds u d (.invalidNodeIdsLength depHashes.length u d))) := by
  constructor
  · intro hal
    refine ⟨depHashes.map (storedNodeIds db u), queryLoop_ok db u _ depHashes hlen hal,
      List.length_map _ _, ?_⟩
    intro i d hi
    refine ⟨storedNodeIds db u d, by rw [List.getElem?_map, hi]; rfl, ?_, ?_⟩
    · intro hnone
      unfold storedNodeIds; rw [hnone]
    · intro row hrow
      have hmem : d ∈ depHashes := List.getElem?_mem hi
      have h := decodeNodeIds_of_aligned row.nodeIds (hal d hmem row hrow)
      unfold storedNodeIds; rw [hrow]
      exact ⟨h.1, h.2.1⟩
  · intro hbad
    exact queryLoop_corrupt db u _ depHashes hlen hbad

/-- C5 on a store built by two publish calls, queried for a fingerprint on
record and one without record, and on a store with a blob of one byte. -/
theorem query_returns_decoded_blobs_witness :
    (∀ d ∈ [sampleDepHash 7, sampleDepHash 8], d.length = DEP_HASH_HEX_SIZE) ∧
    (∀ d ∈ [sampleDepHash 7, sampleDepHash 8],
      RecordAligned (runPublishes Db.empty sampleCalls) 1 d) ∧
    QueryPassedTestHashes (runPublishes Db.empty sampleCalls) 1
        [sampleDepHash 7, sampleDepHash 8] =
      .ok [[sampleNodeId 2, sampleNodeId 1, sampleNodeId 3], []] ∧
    (∃ res, QueryPassedTestHashes (runPublishes Db.empty sampleCalls) 1
          [sampleDepHash 7, sampleDepHash 8] = .ok res ∧
        res.length = [sampleDepHash 7, sampleDepHash 8].length ∧
        ∀ (i : Nat) (d : GoString), [sampleDepHash 7, sampleDepHash 8][i]? = some d →
          ∃ ids, res[i]? = some ids ∧
            ((runPublishes Db.empty sampleCalls).testResults 1 d = none → ids = []) ∧
            (∀ row, (runPublishes Db.empty sampleCalls).testResults 1 d = some row →
              concatNodeIds ids = row.nodeIds ∧
              ∀ x ∈ ids, x.length = NODEID_HASH_HEX_SIZE)) ∧
    (∃ d ∈ [sampleDepHash 7], ∃ row, corruptDb.testResults 1 d = some row ∧
        row.nodeIds.length % NODEID_HASH_HEX_SIZE ≠ 0) ∧
    (∃ d ∈ [sampleDepHash 7], QueryPassedTestHashes corruptDb 1 [sampleDepHash 7] =
        .error (.failedToGetNodeIds 1 d
          (.invalidNodeIdsLength [sampleDepHash 7].length 1 d))) := by
  have hlen : ∀ d ∈ [sampleDepHash 7, sampleDepHash 8], d.length = DEP_HASH_HEX_SIZE := by
    intro d hd
    simp only [List.mem_cons, List.mem_singleton, List.not_mem_nil, or_false] at hd
    rcases hd with rfl | rfl <;> rfl
  have hal : ∀ d ∈ [sampleDepHash 7, sampleDepHash 8],
      RecordAligned (runPublishes Db.empty sampleCalls) 1 d :=
    fun d _ => recordAligned_of_wellFormed _
      (StoreWellFormed_runPublishes sampleCalls Db.empty StoreWellFormed_empty) 1 d
  have hlen1 : ∀ d ∈ [sampleDepHash 7], d.length = DEP_HASH_HEX_SIZE := by
    intro d hd
    simp only [List.mem_singleton] at hd
    rw [hd]; rfl
  have hbad : ∃ d ∈ [sampleDepHash 7], ∃ row, corruptDb.testResults 1 d = some row ∧
      row.nodeIds.length % NODEID_HASH_HEX_SIZE ≠ 0 :=
    ⟨sampleDepHash 7, List.mem_singleton.mpr rfl, ⟨0, [0]⟩, rfl, by decide⟩
  exact ⟨hlen, hal, rfl,
    (query_returns_decoded_blobs (runPublishes Db.empty sampleCalls) 1
      [sampleDepHash 7, sampleDepHash 8] hlen).1 hal,
    hbad,
    (query_returns_decoded_blobs corruptDb 1 [sampleDepHash 7] hlen1).2 hbad⟩

/-- C6 (as amended): a query whose list holds an entry of a length other
than 64 fails, whatever the store; each fingerprint is checked right before
its own lookup, so the error is the invalid-length error of the first such
entry when every record of the fingerprints before it has a blob whose
length is a multiple of 32 (as in every store built by publish calls). -/
theorem query_invalid_fingerprint (db : Db) (u : Int) (depHashes : List GoString)
    (h : ∃ d ∈ depHashes, d.length ≠ DEP_HASH_HEX_SIZE) :
    (∃ e, QueryPassedTestHashes db u depHashes = .error e) ∧
    (∀ (pre : List GoString) (bad : GoString) (post : List GoString),
      depHashes = pre ++ bad :: post → (∀ d ∈ pre, d.length = DEP_HASH_HEX_SIZE) →
      bad.length ≠ DEP_HASH_HEX_SIZE → (∀ d ∈ pre, RecordAligned db u d) →
      QueryPassedTestHashes db u depHashes = .error (.invalidDepHashLength bad.length)) := by
  constructor
  · unfold QueryPassedTestHashes
    generalize depHashes.length = total
    induction depHashes with
    | nil => obtain ⟨d, hd, _⟩ := h; simp at hd
    | cons d rest ih =>
      by_cases hd : d.length = DEP_HASH_HEX_SIZE
      · have hrest : ∃ x ∈ rest, x.length ≠ DEP_HASH_HEX_SIZE := by
          obtain ⟨x, hx, hne⟩ := h
          rcases List.mem_cons.mp hx with rfl | hx
          · exact absurd hd hne
          · exact ⟨x, hx, hne⟩
        obtain ⟨e, he⟩ := ih hrest
        simp only [queryLoop, hd, ne_eq, not_true_eq_false, if_false, he]
        cases db.testResults u d with
        | none => exact ⟨e, rfl⟩
        | some row =>
          dsimp only
          split
          · exact ⟨_, rfl⟩
          · exact ⟨e, rfl⟩
      · have hd' : d.length ≠ DEP_HASH_HEX_SIZE := hd
        rw [queryLoop, if_pos hd']
        exact ⟨_, rfl⟩
  · intro pre bad post hsplit hpre hbad hal
    subst hsplit
    unfold QueryPassedTestHashes
    generalize (pre ++ bad :: post).length = total
    clear h
    induction pre with
    | nil => simp only [List.nil_append, queryLoop, ne_eq, hbad, not_false_eq_true, if_true]
    | cons d rest ih =>
      have hd : d.length = DEP_HASH_HEX_SIZE := hpre d (List.mem_cons_self _ _)
      have hrest := ih (fun x hx => hpre x (List.mem_cons_of_mem _ hx))
        (fun x hx => hal x (List.mem_cons_of_mem _ hx))
      rw [List.cons_append]
      simp only [queryLoop, hd, ne_eq, not_true_eq_false, if_false, hrest]
      cases hrow : db.testResults u d with
      | none => rfl
      | some row =>
        have h0 := hal d (List.mem_cons_self _ _) row hrow
        simp only [h0, not_true_eq_false, if_false]

/-- C6 as amended, on a list whose second fingerprint has 63 bytes. -/
theorem query_invalid_fingerprint_witness :
    (∃ d ∈ [sampleDepHash 7, shortDepHash], d.length ≠ DEP_HASH_HEX_SIZE) ∧
    ((∃ e, QueryPassedTestHashes corruptDb 1 [sampleDepHash 7, shortDepHash] = .error e) ∧
    (∀ (pre : List GoString) (bad : GoString) (post : List GoString),
      [sampleDepHash 7, shortDepHash] = pre ++ bad :: post →
      (∀ d ∈ pre, d.length = DEP_HASH_HEX_SIZE) →
      bad.length ≠ DEP_HASH_HEX_SIZE → (∀ d ∈ pre, RecordAligned corruptDb 1 d) →
      QueryPassedTestHashes corruptDb 1 [sampleDepHash 7, shortDepHash] =
        .error (.invalidDepHashLength bad.length))) :=
  ⟨⟨shortDepHash, by simp, by decide⟩,
    query_invalid_fingerprint corruptDb 1 [sampleDepHash 7, shortDepHash]
      ⟨shortDepHash, by simp, by decide⟩⟩

/-- C6 (counterexample): with a first fingerprint of length 64 whose
record has a blob of one byte and a second fingerprint of length 63, the
query fails with the error of the corrupt blob, not with the invalid-length
error, and on the empty store the same query fails with the invalid-length
error: the record of the first fingerprint is read before the second one is
checked, and the outcome depends on the store. -/
theorem query_validation_order_counterexample :
    QueryPassedTestHashes corruptDb 1 [sampleDepHash 7, shortDepHash] =
      .error (.failedToGetNodeIds 1 (sampleDepHash 7)
        (.invalidNodeIdsLength 2 1 (sampleDepHash 7))) ∧
    QueryPassedTestHashes Db.empty 1 [sampleDepHash 7, shortDepHash] =
      .error (.invalidDepHashLength 63) ∧
    QueryPassedTestHashes corruptDb 1 [sampleDepHash 7, shortDepHash] ≠
      QueryPassedTestHashes Db.empty 1 [sampleDepHash 7, shortDepHash] := by
  have h1 : QueryPassedTestHashes corruptDb 1 [sampleDepHash 7, shortDepHash] =
      .error (.failedToGetNodeIds 1 (sampleDepHash 7)
        (.invalidNodeIdsLength 2 1 (sampleDepHash 7))) := rfl
  have h2 : QueryPassedTestHashes Db.empty 1 [sampleDepHash 7, shortDepHash] =
      .error (.invalidDepHashLength 63) := rfl
  refine ⟨h1, h2, ?_⟩
  rw [h1, h2]
  intro h
  cases h

/-! ## Outcomes of `AuthUser` -/

theorem selectAuthRow_of_rows (db : Db) (token : GoString) (t : ApiTokenRow) (usr : UserRow)
    (ht : db.apiTokens token = some t) (hu : db.users t.userId = some usr) :
    selectAuthRow db token =
      some { userId := t.userId
             expiresAt := t.expiresAt
             tokenEnabled := t.disabledAt.isNone && usr.disabledAt.isNone } := by
  simp only [selectAuthRow, ht, hu]

/-- C7: `AuthUser` has one outcome, decided in this order. A token that is
empty or longer than 40 bytes is refused with "Invalid Token" whatever the
store holds. Otherwise, when the join finds no row (no credential has that
token, or its tenant row is absent) the token is refused with "Invalid
Token"; when the row has an expiration that the current time exceeds it is
refused with "Token Expired", disabled or not; otherwise, when the
credential or its tenant is disabled it is refused with "Token Disabled";
otherwise the call succeeds with the tenant id of the row. Every refusal
has status 401 and returns the tenant id -1. -/
theorem AuthUser_outcome (db : Db) (now : Int) (token : GoString) :
    ((token.length = 0 ∨ 40 < token.length) →
      ∀ db' : Db, AuthUser db' now token =
        (-1, some ⟨401, "Invalid Token", .tokenLengthOutOfBounds token.length⟩)) ∧
    (¬ (token.length = 0 ∨ 40 < token.length) →
      ((db.apiTokens token = none ∨
          ∃ t, db.apiTokens token = some t ∧ db.users t.userId = none) →
        AuthUser db now token = (-1, some ⟨401, "Invalid Token", .tokenNotFound⟩)) ∧
      (∀ (t : ApiTokenRow) (usr : UserRow),
        db.apiTokens token = some t → db.users t.userId = some usr →
        (∀ e, t.expiresAt = some e → e < now →
          AuthUser db now token =
            (-1, some ⟨401, "Token Expired", .tokenExpired e t.userId⟩)) ∧
        ((∀ e, t.expiresAt = some e → ¬ e < now) →
          ((t.disabledAt ≠ none ∨ usr.disabledAt ≠ none) →
            AuthUser db now token =
              (-1, some ⟨401, "Token Disabled", .tokenDisabled t.userId⟩)) ∧
          (t.disabledAt = none → usr.disabledAt = none →
            AuthUser db now token = (t.userId, none))))) := by
  constructor
  · intro hlen db'
    have hguard : token.length > 40 ∨ token.length = 0 := by
      rcases hlen with h | h
      · exact Or.inr h
      · exact Or.inl h
    unfold AuthUser
    rw [if_pos hguard]
    rfl
  · intro hlen
    have hguard : ¬ (token.length > 40 ∨ token.length = 0) := by
      rintro (h | h)
      · exact hlen (Or.inr h)
      · exact hlen (Or.inl h)
    constructor
    · intro hnone
      have hsel : selectAuthRow db token = none := by
        unfold selectAuthRow
        rcases hnone with h | ⟨t, ht, hu⟩
        · rw [h]
        · rw [ht]; dsimp only; rw [hu]
      unfold AuthUser
      rw [if_neg hguard, hsel]
      rfl
    · intro t usr ht hu
      have hsel := selectAuthRow_of_rows db token t usr ht hu
      refine ⟨?_, ?_⟩
      · intro e he hlt
        unfold AuthUser
        rw [if_neg hguard, hsel]
        have hgt : now > e := hlt
        simp only [authResultFunc, he, hgt, if_true]
        rfl
      · intro hnot
        have hres : authResultFunc now
            { userId := t.userId, expiresAt := t.expiresAt,
              tokenEnabled := t.disabledAt.isNone && usr.disabledAt.isNone } =
            if (!(t.disabledAt.isNone && usr.disabledAt.isNone)) = true then
              some (HttpErrWrap StatusUnauthorized "Token Disabled"
                (.tokenDisabled t.userId))
            else none := by
          unfold authResultFunc
          cases he : t.expiresAt with
          | none => rfl
          | some e =>
            have hle : ¬ now > e := hnot e he
            simp only [hle, if_false]
        refine ⟨?_, ?_⟩
        · intro hdis
          have hen : (t.disabledAt.isNone && usr.disabledAt.isNone) = false := by
            rcases hdis with h | h
            · cases hd : t.disabledAt with
              | none => exact absurd hd h
              | some v => rfl
            · cases hd : usr.disabledAt with
              | none => exact absurd hd h
              | some v => simp
          unfold AuthUser
          rw [if_neg hguard, hsel]
          dsimp only
          rw [hres, hen]
          rfl
        · intro h1 h2
          unfold AuthUser
          rw [if_neg hguard, hsel]
          dsimp only
          rw [hres, h1, h2]
          rfl

/-- C7 on a store with one credential that expires at instant 100: an empty
token, an unknown token, the token after and before its expiration. -/
theorem AuthUser_outcome_witness :
    AuthUser sampleAuthDb 50 [] =
      (-1, some ⟨401, "Invalid Token", .tokenLengthOutOfBounds 0⟩) ∧
    AuthUser sampleAuthDb 50 (sampleNodeId 9) =
      (-1, some ⟨401, "Invalid Token", .tokenNotFound⟩) ∧
    AuthUser sampleAuthDb 200 sampleToken =
      (-1, some ⟨401, "Token Expired", .tokenExpired 100 1⟩) ∧
    AuthUser sampleAuthDb 50 sampleToken = (1, none) :=
  ⟨(AuthUser_outcome sampleAuthDb 50 []).1 (Or.inl rfl) sampleAuthDb,
    ((AuthUser_outcome sampleAuthDb 50 (sampleNodeId 9)).2 (by decide)).1 (Or.inl rfl),
    (((AuthUser_outcome sampleAuthDb 200 sampleToken).2 (by decide)).2
      { userId := 1, expiresAt := some 100, disabledAt := none }
      { disabledAt := none, superuser := true } rfl rfl).1 100 rfl (by decide),
    ((((AuthUser_outcome sampleAuthDb 50 sampleToken).2 (by decide)).2
      { userId := 1, expiresAt := some 100, disabledAt := none }
      { disabledAt := none, superuser := true } rfl rfl).2
      (by intro e he; cases he; decide)).2 rfl rfl⟩

/-! ## The flush of a batch -/

theorem publishDepHash_userUsage (rt : Runtime) (db : Db) (u : Int) (f : GoString)
    (new : List GoString) :
    (publishDepHash rt db u f new).1.userUsage = db.userUsage := by
  rcases publishDepHash_cases rt db u f new with ⟨e, he⟩ | ⟨ids, hw, _⟩
  · rw [he]
  · rw [hw]; rfl

theorem PublishTestHashes_userUsage (rt : Runtime) (u : Int)
    (tests : List (GoString × List GoString)) :
    ∀ db : Db, (PublishTestHashes rt db u tests).1.userUsage = db.userUsage := by
  induction tests with
  | nil => intro db; rfl
  | cons hd rest ih =>
    intro db
    obtain ⟨f, new⟩ := hd
    have hstep := publishDepHash_userUsage rt db u f new
    cases hres : publishDepHash rt db u f new with
    | mk db1 err =>
      rw [hres] at hstep
      cases err with
      | none => rw [PublishTestHashes_cons_ok rt db db1 u f new rest hres, ih db1]; exact hstep
      | some e => rw [PublishTestHashes_cons_error rt db db1 u f new rest e hres]; exact hstep

theorem backgroundHandlerFrom_userUsage (rt : Nat → Runtime) (items : List WorkItem) :
    ∀ (k : Nat) (db : Db), (backgroundHandlerFrom rt k db items).1.userUsage =
      db.userUsage ++ items.filterMap usageRowOf := by
  induction items with
  | nil => intro k db; simp [backgroundHandlerFrom]
  | cons item rest ih =>
    intro k db
    cases item with
    | usageRecord r =>
      simp only [backgroundHandlerFrom, RecordUsage, ih, List.filterMap_cons, usageRowOf,
        List.append_assoc, List.singleton_append]
    | userPublishRequest r =>
      have hpub := PublishTestHashes_userUsage (rt k) r.UserId
        r.Req.PassedNodeIdsPerTestFile db
      cases hres : PublishTestHashes (rt k) db r.UserId r.Req.PassedNodeIdsPerTestFile with
      | mk db1 err =>
        rw [hres] at hpub
        cases err with
        | none =>
          have hpub' : db1.userUsage = db.userUsage := hpub
          simp only [backgroundHandlerFrom, hres, ih, hpub', List.filterMap_cons, usageRowOf]
        | some e =>
          have hpub' : db1.userUsage = db.userUsage := hpub
          simp only [backgroundHandlerFrom, hres, ih, hpub', List.filterMap_cons, usageRowOf]
    | unknown =>
      simp only [backgroundHandlerFrom, ih, List.filterMap_cons, usageRowOf]

/-- C8 (as amended): a flush whose transaction starts commits whatever the
intents return: the handler logs the error of a failing intent and goes on
with the next one, the function given to `DbTxn` returns nil, and the store
after the flush is the store the handler left; in particular every usage
record of the batch is appended to the usage table, in batch order, whether
or not another intent failed. The store is left as it was when the
transaction cannot be started. -/
theorem flush_commits_what_the_handler_did (rt : Nat → Runtime) (db : Db)
    (workItems : List WorkItem) :
    flushWorkItems false rt db workItems = ((backgroundHandler rt db workItems).1, none) ∧
    (flushWorkItems false rt db workItems).1.userUsage =
      db.userUsage ++ workItems.filterMap usageRowOf ∧
    flushWorkItems true rt db workItems = (db, some .failedToStart) := by
  have h1 : flushWorkItems false rt db workItems =
      ((backgroundHandler rt db workItems).1, none) := rfl
  refine ⟨h1, ?_, rfl⟩
  rw [h1]
  exact backgroundHandlerFrom_userUsage rt workItems 0 db

/-- C8 (counterexample): in a batch of a publish whose second fingerprint
is one byte short followed by a usage record, the publish returns an error,
which the handler logs, yet after the flush the usage row of the other
intent and the record of the first fingerprint of the failing publish are in
the store: the flush is not rolled back and the store is not the one before
the flush. -/
theorem flush_rollback_counterexample :
    (PublishTestHashes (Runtime.plain 0) Db.empty 1
        [(sampleDepHash 7, [sampleNodeId 1]), (shortDepHash, [])]).2 =
      some (.invalidDepHashLength 63) ∧
    (backgroundHandler (fun _ => Runtime.plain 0) Db.empty failingBatch).2 =
      [.invalidDepHashLength 63] ∧
    (flushWorkItems false (fun _ => Runtime.plain 0) Db.empty failingBatch).2 = none ∧
    (flushWorkItems false (fun _ => Runtime.plain 0) Db.empty failingBatch).1.userUsage =
      [⟨9, 1, 2, 1⟩] ∧
    (flushWorkItems false (fun _ => Runtime.plain 0) Db.empty failingBatch).1.testResults 1
      (sampleDepHash 7) = some ⟨0, sampleNodeId 1⟩ ∧
    (flushWorkItems false (fun _ => Runtime.plain 0) Db.empty failingBatch).1.userUsage ≠
      Db.empty.userUsage ∧
    (flushWorkItems false (fun _ => Runtime.plain 0) Db.empty failingBatch).1.testResults 1
      (sampleDepHash 7) ≠ Db.empty.testResults 1 (sampleDepHash 7) := by
  have h1 : (flushWorkItems false (fun _ => Runtime.plain 0) Db.empty
      failingBatch).1.userUsage = [⟨9, 1, 2, 1⟩] := rfl
  have h2 : (flushWorkItems false (fun _ => Runtime.plain 0) Db.empty
      failingBatch).1.testResults 1 (sampleDepHash 7) = some ⟨0, sampleNodeId 1⟩ := rfl
  refine ⟨rfl, rfl, rfl, h1, h2, ?_, ?_⟩
  · rw [h1]; intro h; cases h
  · rw [h2]; intro h; cases h

/-! ## Merges of one record -/

/-- Whether one iteration returns an error does not depend on what the
runtime decides. -/
theorem publishDepHash_accept_of_accept (rt rt' : Runtime) (db db1 : Db) (u : Int)
    (f : GoString) (new : List GoString)
    (h : publishDepHash rt db u f new = (db1, none)) :
    ∃ db2, publishDepHash rt' db u f new = (db2, none) := by
  rcases publishDepHash_cases rt db u f new with ⟨e, he⟩ | ⟨ids, _, _, hf, hnew, hal, hq⟩
  · rw [he] at h; cases h
  · exact ⟨_, publishDepHash_accept rt' db u f new hf hnew hal hq⟩

/-- The set on record after a single-entry call: the one before when the
call fails, the one before extended with the new identifiers otherwise. -/
theorem PublishTestHashes_single_mem (rt : Runtime) (db : Db) (u : Int) (f : GoString)
    (new : List GoString) (x : GoString) :
    x ∈ storedNodeIds (PublishTestHashes rt db u [(f, new)]).1 u f ↔
      x ∈ storedNodeIds db u f ∨
        ((PublishTestHashes rt db u [(f, new)]).2 = none ∧ x ∈ new) := by
  rw [PublishTestHashes_single]
  cases hres : publishDepHash rt db u f new with
  | mk db1 err =>
    cases err with
    | none =>
      rw [publishDepHash_mem rt db db1 u f new hres u f x]
      simp
    | some e =>
      rw [publishDepHash_error rt db db1 u f new e hres]
      simp

/-- C9 (as amended): for one tenant and fingerprint, when the two updates
are accepted in both orders the set on record is the same after `N1` then
`N2` as after `N2` then `N1`; and, accepted or not, the set on record after
the same list is published twice is the set on record after it is published
once. Each call has its own runtime. -/
theorem publish_merges_commute_when_accepted (db : Db) (u : Int) (f : GoString) :
    (∀ (rt1 rt2 rt3 rt4 : Runtime) (N1 N2 : List GoString),
      (PublishTestHashes rt1 db u [(f, N1)]).2 = none →
      (PublishTestHashes rt2 (PublishTestHashes rt1 db u [(f, N1)]).1 u [(f, N2)]).2 = none →
      (PublishTestHashes rt3 db u [(f, N2)]).2 = none →
      (PublishTestHashes rt4 (PublishTestHashes rt3 db u [(f, N2)]).1 u [(f, N1)]).2 = none →
      ∀ x,
        x ∈ storedNodeIds
            (PublishTestHashes rt2 (PublishTestHashes rt1 db u [(f, N1)]).1 u [(f, N2)]).1 u f ↔
        x ∈ storedNodeIds
            (PublishTestHashes rt4 (PublishTestHashes rt3 db u [(f, N2)]).1 u [(f, N1)]).1 u f) ∧
    (∀ (rt1 rt2 : Runtime) (N : List GoString) (x : GoString),
      x ∈ storedNodeIds
          (PublishTestHashes rt2 (PublishTestHashes rt1 db u [(f, N)]).1 u [(f, N)]).1 u f ↔
      x ∈ storedNodeIds (PublishTestHashes rt1 db u [(f, N)]).1 u f) := by
  constructor
  · intro rt1 rt2 rt3 rt4 N1 N2 h1 h2 h3 h4 x
    rw [PublishTestHashes_single_mem rt2, PublishTestHashes_single_mem rt1,
      PublishTestHashes_single_mem rt4, PublishTestHashes_single_mem rt3]
    simp only [h1, h2, h3, h4, true_and]
    tauto
  · intro rt1 rt2 N x
    rw [PublishTestHashes_single_mem rt2]
    constructor
    · rintro (h | ⟨hacc, hx⟩)
      · exact h
      · rw [PublishTestHashes_single_mem rt1]
        by_cases h1 : (PublishTestHashes rt1 db u [(f, N)]).2 = none
        · exact Or.inr ⟨h1, hx⟩
        · exfalso
          rw [PublishTestHashes_single] at h1 hacc
          cases hres : publishDepHash rt1 db u f N with
          | mk db1 err =>
            cases err with
            | none => rw [hres] at h1; exact h1 rfl
            | some e =>
              have hdb := publishDepHash_error rt1 db db1 u f N e hres
              rw [PublishTestHashes_single, hres] at hacc
              dsimp only at hacc
              rw [hdb] at hacc
              cases hres2 : publishDepHash rt2 db u f N with
              | mk db2 err2 =>
                cases err2 with
                | none =>
                  obtain ⟨db3, h3⟩ := publishDepHash_accept_of_accept rt2 rt1 db db2 u f N hres2
                  rw [hres] at h3
                  cases h3
                | some e2 => rw [hres2] at hacc; cases hacc
    · intro h
      exact Or.inl h

/-- C9 as amended, on two overlapping lists of two identifiers published in
both orders on the empty store, and on one list published twice. -/
theorem publish_merges_commute_when_accepted_witness :
    (∀ x,
      x ∈ storedNodeIds
          (PublishTestHashes (Runtime.reversed 2)
            (PublishTestHashes (Runtime.plain 1) Db.empty 1
              [(sampleDepHash 7, [sampleNodeId 1, sampleNodeId 2])]).1 1
            [(sampleDepHash 7, [sampleNodeId 2, sampleNodeId 3])]).1 1 (sampleDepHash 7) ↔
      x ∈ storedNodeIds
          (PublishTestHashes (Runtime.plain 4)
            (PublishTestHashes (Runtime.reversed 3) Db.empty 1
              [(sampleDepHash 7, [sampleNodeId 2, sampleNodeId 3])]).1 1
            [(sampleDepHash 7, [sampleNodeId 1, sampleNodeId 2])]).1 1 (sampleDepHash 7)) ∧
    (∀ x,
      x ∈ storedNodeIds
          (PublishTestHashes (Runtime.reversed 2)
            (PublishTestHashes (Runtime.plain 1) Db.empty 1
              [(sampleDepHash 7, [sampleNodeId 1, sampleNodeId 2])]).1 1
            [(sampleDepHash 7, [sampleNodeId 1, sampleNodeId 2])]).1 1 (sampleDepHash 7) ↔
      x ∈ storedNodeIds
          (PublishTestHashes (Runtime.plain 1) Db.empty 1
            [(sampleDepHash 7, [sampleNodeId 1, sampleNodeId 2])]).1 1 (sampleDepHash 7)) :=
  ⟨(publish_merges_commute_when_accepted Db.empty 1 (sampleDepHash 7)).1
      (Runtime.plain 1) (Runtime.reversed 2) (Runtime.reversed 3) (Runtime.plain 4)
      [sampleNodeId 1, sampleNodeId 2] [sampleNodeId 2, sampleNodeId 3] rfl rfl rfl rfl,
    fun x => (publish_merges_commute_when_accepted Db.empty 1 (sampleDepHash 7)).2
      (Runtime.plain 1) (Runtime.reversed 2) [sampleNodeId 1, sampleNodeId 2] x⟩

/-- C9 (counterexample): on the empty store, with `N1` a list of 32768
pairwise distinct identifiers and `N2` one further identifier, `N1` then
`N2` leaves the identifiers of `N1` on record (`N2` is rejected by the quota
check), while `N2` then `N1` leaves only the identifier of `N2` (`N1` is
rejected): the two orders leave different sets. -/
theorem publish_merges_commute_counterexample :
    (sampleDepHash 7).length = DEP_HASH_HEX_SIZE ∧
    (∀ n ∈ numberedNodeIds MAX_NODEIDS_PER_DEP, n.length = NODEID_HASH_HEX_SIZE) ∧
    (∀ n ∈ [sampleNodeId 2], n.length = NODEID_HASH_HEX_SIZE) ∧
    numberedNodeId 0 ∈ storedNodeIds
      (PublishTestHashes (Runtime.plain 0)
        (PublishTestHashes (Runtime.plain 0) Db.empty 1
          [(sampleDepHash 7, numberedNodeIds MAX_NODEIDS_PER_DEP)]).1 1
        [(sampleDepHash 7, [sampleNodeId 2])]).1 1 (sampleDepHash 7) ∧
    numberedNodeId 0 ∉ storedNodeIds
      (PublishTestHashes (Runtime.plain 0)
        (PublishTestHashes (Runtime.plain 0) Db.empty 1
          [(sampleDepHash 7, [sampleNodeId 2])]).1 1
        [(sampleDepHash 7, numberedNodeIds MAX_NODEIDS_PER_DEP)]).1 1 (sampleDepHash 7) := by
  have hlen := length_numberedNodeIds MAX_NODEIDS_PER_DEP
  have hvalid := length_of_mem_numberedNodeIds MAX_NODEIDS_PER_DEP
  have hmem : numberedNodeId 0 ∈ numberedNodeIds MAX_NODEIDS_PER_DEP :=
    List.mem_map.mpr ⟨0, List.mem_range.mpr (by decide), rfl⟩
  have hal0 : RecordAligned Db.empty 1 (sampleDepHash 7) := by
    intro row hrow; cases hrow
  have hcnt0 : storedCount Db.empty 1 (sampleDepHash 7) = 0 := rfl
  refine ⟨rfl, hvalid, ?_, ?_, ?_⟩
  · intro n hn
    rw [List.mem_singleton.mp hn]; rfl
  · rw [PublishTestHashes_single_mem]
    left
    rw [PublishTestHashes_single_mem]
    right
    refine ⟨?_, hmem⟩
    rw [PublishTestHashes_single, publishDepHash_accept (Runtime.plain 0) Db.empty 1
      (sampleDepHash 7) (numberedNodeIds MAX_NODEIDS_PER_DEP) rfl hvalid hal0
      (by rw [hcnt0, hlen]; omega)]
  · have hfirst : PublishTestHashes (Runtime.plain 0) Db.empty 1
        [(sampleDepHash 7, [sampleNodeId 2])] =
        (Db.empty.insertOrReplace 1 (sampleDepHash 7) 0 (sampleNodeId 2), none) := rfl
    rw [hfirst]
    dsimp only
    have hal1 : RecordAligned (Db.empty.insertOrReplace 1 (sampleDepHash 7) 0
        (sampleNodeId 2)) 1 (sampleDepHash 7) := by
      intro row hrow
      rw [testResults_insertOrReplace_same] at hrow
      cases hrow
      rfl
    have hcnt1 : storedCount (Db.empty.insertOrReplace 1 (sampleDepHash 7) 0
        (sampleNodeId 2)) 1 (sampleDepHash 7) = 1 := rfl
    obtain ⟨e, he, _⟩ := publishDepHash_reject (Runtime.plain 0)
      (Db.empty.insertOrReplace 1 (sampleDepHash 7) 0 (sampleNodeId 2)) 1
      (sampleDepHash 7) (numberedNodeIds MAX_NODEIDS_PER_DEP) rfl hal1
      (by rw [hcnt1, hlen]; omega)
    rw [PublishTestHashes_single, he]
    have hstored : storedNodeIds (Db.empty.insertOrReplace 1 (sampleDepHash 7) 0
        (sampleNodeId 2)) 1 (sampleDepHash 7) = [sampleNodeId 2] := rfl
    dsimp only
    rw [hstored]
    decide

/-! ## Runs of the worker -/

theorem sublist_flatten {α : Type} {l₁ l₂ : List (List α)} (h : l₁.Sublist l₂) :
    l₁.flatten.Sublist l₂.flatten := by
  induction h with
  | slnil => exact List.Sublist.refl _
  | cons a _ ih =>
    rw [List.flatten_cons]
    exact ih.trans (List.sublist_append_right _ _)
  | cons₂ a _ ih =>
    rw [List.flatten_cons, List.flatten_cons]
    exact List.Sublist.append (List.Sublist.refl _) ih

theorem started_sublist_flushed (p : Pipeline) : p.started.Sublist p.flushed :=
  List.Sublist.map _ (List.filter_sublist _)

theorem flushed_append (p : Pipeline) (attempts : List FlushAttempt) (a : FlushAttempt)
    (h : p.attempts = attempts ++ [a]) :
    p.flushed = attempts.map (fun x => x.batch) ++ [a.batch] := by
  simp [Pipeline.flushed, h]

theorem started_append (p : Pipeline) (attempts : List FlushAttempt) (a : FlushAttempt)
    (h : p.attempts = attempts ++ [a]) :
    p.started =
      (attempts.filter (fun x => !x.beginFailed)).map (fun x => x.batch) ++
        (if a.beginFailed = true then [] else [a.batch]) := by
  cases hb : a.beginFailed <;> simp [Pipeline.started, h, List.filter_append, hb]

/-- An iteration that takes `<-work`: the intent joins the accumulated list,
nothing is flushed and the store is not touched. -/
theorem afterIteration_work (handler : Db → List WorkItem → Db) (batchTime : Int)
    (beginFails : Bool) (p : Pipeline) (item : WorkItem) (now : Int) :
    (p.afterIteration handler batchTime beginFails (.work item now)).worker.workItems =
        p.worker.workItems ++ [item] ∧
    (p.afterIteration handler batchTime beginFails (.work item now)).worker.isDone =
        p.worker.isDone ∧
    (p.afterIteration handler batchTime beginFails (.work item now)).attempts = p.attempts ∧
    (p.afterIteration handler batchTime beginFails (.work item now)).handled = p.handled ∧
    (p.afterIteration handler batchTime beginFails (.work item now)).received = p.received ∧
    (p.afterIteration handler batchTime beginFails (.work item now)).sent = p.sent ∧
    (p.afterIteration handler batchTime beginFails (.work item now)).work = p.work ∧
    (p.afterIteration handler batchTime beginFails (.work item now)).db = p.db := by
  by_cases hs : p.worker.isSleeping = true
  · simp [Pipeline.afterIteration, workerIteration, selectBranch, commitBlock, hs]
  · simp [Pipeline.afterIteration, workerIteration, selectBranch, commitBlock, hs]

/-- An iteration that takes `<-done` or the timer: the accumulated list is
empty afterwards; when it was not empty before, it is the batch of a flush,
and unless the transaction fails to start the handler is applied to the
store with that batch. -/
theorem afterIteration_commit (handler : Db → List WorkItem → Db) (batchTime : Int)
    (beginFails : Bool) (p : Pipeline) (sel : Selected)
    (hsel : sel = .done ∨ ∃ now, sel = .timer now) :
    (p.afterIteration handler batchTime beginFails sel).worker.workItems = [] ∧
    (p.afterIteration handler batchTime beginFails sel).received = p.received ∧
    (p.afterIteration handler batchTime beginFails sel).sent = p.sent ∧
    (p.afterIteration handler batchTime beginFails sel).work = p.work ∧
    ((p.afterIteration handler batchTime beginFails sel).worker.isDone = true →
      p.worker.isDone = true ∨ sel = .done) ∧
    ((p.worker.workItems = [] ∧
        (p.afterIteration handler batchTime beginFails sel).attempts = p.attempts ∧
        (p.afterIteration handler batchTime beginFails sel).handled = p.handled ∧
        (p.afterIteration handler batchTime beginFails sel).db = p.db) ∨
      (p.worker.workItems ≠ [] ∧
        (p.afterIteration handler batchTime beginFails sel).attempts =
          p.attempts ++ [⟨p.worker.workItems, beginFails⟩] ∧
        (p.afterIteration handler batchTime beginFails sel).handled =
          (if beginFails = true then p.handled else p.handled ++ [p.worker.workItems]) ∧
        (p.afterIteration handler batchTime beginFails sel).db =
          (if beginFails = true then p.db else handler p.db p.worker.workItems))) := by
  cases hitems : p.worker.workItems with
  | nil =>
    rcases hsel with rfl | ⟨now, rfl⟩
    · simp [Pipeline.afterIteration, workerIteration, selectBranch, commitBlock, hitems]
    · simp [Pipeline.afterIteration, workerIteration, selectBranch, commitBlock, hitems]
  | cons item rest =>
    rcases hsel with rfl | ⟨now, rfl⟩
    · cases beginFails <;>
        simp [Pipeline.afterIteration, workerIteration, selectBranch, commitBlock, hitems,
          DbTxn]
    · cases beginFails <;>
        simp [Pipeline.afterIteration, workerIteration, selectBranch, commitBlock, hitems,
          DbTxn]

theorem PipelineInv_start (db : Db) (now : Int) : PipelineInv (Pipeline.start db now) := by
  refine ⟨rfl, rfl, rfl, ?_, ?_⟩
  · intro batch hb; simp [Pipeline.start, Pipeline.flushed] at hb
  · intro h; simp [Pipeline.start, WorkerState.start] at h

theorem PipelineInv_commit (handler : Db → List WorkItem → Db) (batchTime : Int)
    (beginFails : Bool) (p : Pipeline) (sel : Selected)
    (hsel : sel = .done ∨ ∃ now, sel = .timer now) (hinv : PipelineInv p) :
    PipelineInv (p.afterIteration handler batchTime beginFails sel) := by
  obtain ⟨h1, h2, h3, h4, _⟩ := hinv
  obtain ⟨e1, e2, e3, e4, _, e6⟩ :=
    afterIteration_commit handler batchTime beginFails p sel hsel
  rcases e6 with ⟨hnil, ha, hh, _⟩ | ⟨hne, ha, hh, _⟩
  · have hf : (p.afterIteration handler batchTime beginFails sel).flushed = p.flushed := by
      simp only [Pipeline.flushed, ha]
    have hs : (p.afterIteration handler batchTime beginFails sel).started = p.started := by
      simp only [Pipeline.started, ha]
    refine ⟨?_, ?_, ?_, ?_, fun _ => e1⟩
    · rw [e1, e2, hf, ← h1, hnil]
    · rw [hh, hs]; exact h2
    · rw [e3, e2, e4]; exact h3
    · rw [hf]; exact h4
  · have hf := flushed_append _ _ _ ha
    have hs := started_append _ _ _ ha
    refine ⟨?_, ?_, ?_, ?_, fun _ => e1⟩
    · rw [e1, e2, hf, List.append_nil, List.flatten_append, ← h1]
      simp [Pipeline.flushed]
    · rw [hh, hs, h2]
      cases beginFails <;> simp [Pipeline.started]
    · rw [e3, e2, e4]; exact h3
    · rw [hf]
      intro batch hb
      rcases List.mem_append.mp hb with hb | hb
      · exact h4 batch hb
      · rw [List.mem_singleton.mp hb]; exact hne

/-- The invariant is kept by every event. -/
theorem PipelineInv_step (handler : Db → List WorkItem → Db) (batchTime : Int)
    (p p' : Pipeline) (ev : PipelineEvent) (hinv : PipelineInv p)
    (hstep : p.step handler batchTime ev = some p') : PipelineInv p' := by
  cases ev with
  | send item =>
    simp only [Pipeline.step] at hstep
    split at hstep
    · cases hstep
      obtain ⟨h1, h2, h3, h4, h5⟩ := hinv
      refine ⟨h1, h2, ?_, h4, h5⟩
      show p.sent ++ [item] = p.received ++ (p.work ++ [item])
      rw [h3, List.append_assoc]
    · cases hstep
  | closeDone =>
    simp only [Pipeline.step] at hstep
    split at hstep
    · cases hstep
    · cases hstep; exact hinv
  | selectDone beginFails =>
    simp only [Pipeline.step] at hstep
    split at hstep
    · cases hstep
      exact PipelineInv_commit handler batchTime beginFails p .done (Or.inl rfl) hinv
    · cases hstep
  | selectTimer now beginFails =>
    simp only [Pipeline.step] at hstep
    split at hstep
    · cases hstep
      exact PipelineInv_commit handler batchTime beginFails p (.timer now)
        (Or.inr ⟨now, rfl⟩) hinv
    · cases hstep
  | selectWork now =>
    simp only [Pipeline.step] at hstep
    split at hstep
    · rename_i hrun
      cases hwork : p.work with
      | nil => rw [hwork] at hstep; cases hstep
      | cons item rest =>
        rw [hwork] at hstep
        cases hstep
        obtain ⟨h1, h2, h3, h4, _⟩ := hinv
        obtain ⟨e1, e2, e3, e4, e5, e6, e7, _⟩ := afterIteration_work handler batchTime false
          ({ p with work := rest, received := p.received ++ [item] } : Pipeline) item now
        have hf : (({ p with work := rest, received := p.received ++ [item] } :
            Pipeline).afterIteration handler batchTime false (.work item now)).flushed =
            p.flushed := by
          simp only [Pipeline.flushed, e3]
        have hs : (({ p with work := rest, received := p.received ++ [item] } :
            Pipeline).afterIteration handler batchTime false (.work item now)).started =
            p.started := by
          simp only [Pipeline.started, e3]
        refine ⟨?_, ?_, ?_, ?_, ?_⟩
        · rw [e1, hf, e5]
          show p.flushed.flatten ++ (p.worker.workItems ++ [item]) = p.received ++ [item]
          rw [← List.append_assoc, h1]
        · rw [e4, hs]; exact h2
        · rw [e6, e5, e7]
          show p.sent = (p.received ++ [item]) ++ rest
          rw [h3, hwork, List.append_assoc]; rfl
        · rw [hf]; exact h4
        · rw [e2]
          intro hd
          have hd' : p.worker.isDone = true := hd
          rw [hrun] at hd'
          cases hd'
    · cases hstep

theorem PipelineInv_run (handler : Db → List WorkItem → Db) (batchTime : Int)
    (trace : List PipelineEvent) :
    ∀ p p' : Pipeline, PipelineInv p → Pipeline.run handler batchTime p trace = some p' →
      PipelineInv p' := by
  induction trace with
  | nil =>
    intro p p' hinv hrun
    simp only [Pipeline.run, Option.some.injEq] at hrun
    rw [← hrun]; exact hinv
  | cons ev rest ih =>
    intro p p' hinv hrun
    simp only [Pipeline.run] at hrun
    cases hstep : p.step handler batchTime ev with
    | none => rw [hstep] at hrun; cases hrun
    | some p1 =>
      rw [hstep] at hrun
      exact ih p1 p' (PipelineInv_step handler batchTime p p1 ev hinv hstep) hrun

/-- The store after an event is the store before it, or the handler applied
to it with the batch the event added to `handled`: the store is the
starting store to which the handler was applied with the batches of
`handled`, in order. -/
theorem step_db_is_handler_on_handled (handler : Db → List WorkItem → Db)
    (batchTime : Int) (db0 : Db) (p p' : Pipeline) (ev : PipelineEvent)
    (hstep : p.step handler batchTime ev = some p')
    (h : p.db = p.handled.foldl handler db0) : p'.db = p'.handled.foldl handler db0 := by
  have hcommit : ∀ (beginFails : Bool) (sel : Selected),
      (sel = .done ∨ ∃ now, sel = .timer now) →
      (p.afterIteration handler batchTime beginFails sel).db =
        (p.afterIteration handler batchTime beginFails sel).handled.foldl handler db0 := by
    intro beginFails sel hsel
    obtain ⟨_, _, _, _, _, e6⟩ := afterIteration_commit handler batchTime beginFails p sel hsel
    rcases e6 with ⟨_, _, hh, hd⟩ | ⟨_, _, hh, hd⟩
    · rw [hh, hd]; exact h
    · rw [hh, hd]
      cases beginFails
      · simp only [Bool.false_eq_true, if_false, List.foldl_append, List.foldl_cons,
          List.foldl_nil, h]
      · simp only [if_true]; exact h
  cases ev with
  | send item =>
    simp only [Pipeline.step] at hstep
    split at hstep
    · cases hstep; exact h
    · cases hstep
  | closeDone =>
    simp only [Pipeline.step] at hstep
    split at hstep
    · cases hstep
    · cases hstep; exact h
  | selectDone beginFails =>
    simp only [Pipeline.step] at hstep
    split at hstep
    · cases hstep; exact hcommit beginFails .done (Or.inl rfl)
    · cases hstep
  | selectTimer now beginFails =>
    simp only [Pipeline.step] at hstep
    split at hstep
    · cases hstep; exact hcommit beginFails (.timer now) (Or.inr ⟨now, rfl⟩)
    · cases hstep
  | selectWork now =>
    simp only [Pipeline.step] at hstep
    split at hstep
    · cases hwork : p.work with
      | nil => rw [hwork] at hstep; cases hstep
      | cons item rest =>
        rw [hwork] at hstep
        cases hstep
        obtain ⟨_, _, _, e4, _, _, _, e8⟩ := afterIteration_work handler batchTime false
          ({ p with work := rest, received := p.received ++ [item] } : Pipeline) item now
        rw [e4, e8]; exact h
    · cases hstep

theorem run_db_is_handler_on_handled (handler : Db → List WorkItem → Db)
    (batchTime : Int) (db0 : Db) (trace : List PipelineEvent) :
    ∀ p p' : Pipeline, p.db = p.handled.foldl handler db0 →
      Pipeline.run handler batchTime p trace = some p' →
      p'.db = p'.handled.foldl handler db0 := by
  induction trace with
  | nil =>
    intro p p' h hrun
    simp only [Pipeline.run, Option.some.injEq] at hrun
    rw [← hrun]; exact h
  | cons ev rest ih =>
    intro p p' h hrun
    simp only [Pipeline.run] at hrun
    cases hstep : p.step handler batchTime ev with
    | none => rw [hstep] at hrun; cases hrun
    | some p1 =>
      rw [hstep] at hrun
      exact ih p1 p' (step_db_is_handler_on_handled handler batchTime db0 p p1 ev hstep h) hrun

/-- An event in which the code sets `doCommit` leaves the accumulated list
empty. -/
theorem step_commit_empties (handler : Db → List WorkItem → Db) (batchTime : Int)
    (p p' : Pipeline) (ev : PipelineEvent) (hstep : p.step handler batchTime ev = some p')
    (hev : ev.setsDoCommit = true) : p'.worker.workItems = [] := by
  cases ev with
  | send item => cases hev
  | closeDone => cases hev
  | selectWork now => cases hev
  | selectDone beginFails =>
    simp only [Pipeline.step] at hstep
    split at hstep
    · cases hstep
      exact (afterIteration_commit handler batchTime beginFails p .done (Or.inl rfl)).1
    · cases hstep
  | selectTimer now beginFails =>
    simp only [Pipeline.step] at hstep
    split at hstep
    · cases hstep
      exact (afterIteration_commit handler batchTime beginFails p (.timer now)
        (Or.inr ⟨now, rfl⟩)).1
    · cases hstep

/-- An event in which the code does not set `doCommit`, the arrival of an
intent among them, makes no flush, calls no handler and leaves the store as
it was. -/
theorem step_no_commit_no_flush (handler : Db → List WorkItem → Db) (batchTime : Int)
    (p p' : Pipeline) (ev : PipelineEvent) (hstep : p.step handler batchTime ev = some p')
    (hev : ev.setsDoCommit = false) :
    p'.attempts = p.attempts ∧ p'.handled = p.handled ∧ p'.db = p.db := by
  cases ev with
  | selectDone beginFails => cases hev
  | selectTimer now beginFails => cases hev
  | send item =>
    simp only [Pipeline.step] at hstep
    split at hstep
    · cases hstep; exact ⟨rfl, rfl, rfl⟩
    · cases hstep
  | closeDone =>
    simp only [Pipeline.step] at hstep
    split at hstep
    · cases hstep
    · cases hstep; exact ⟨rfl, rfl, rfl⟩
  | selectWork now =>
    simp only [Pipeline.step] at hstep
    split at hstep
    · cases hwork : p.work with
      | nil => rw [hwork] at hstep; cases hstep
      | cons item rest =>
        rw [hwork] at hstep
        cases hstep
        obtain ⟨_, _, e3, e4, _, _, _, e8⟩ := afterIteration_work handler batchTime false
          ({ p with work := rest, received := p.received ++ [item] } : Pipeline) item now
        exact ⟨e3, e4, e8⟩
    · cases hstep

/-- The outcome of `BEGIN IMMEDIATE` recorded with a flush is the one of an
event of the run in which the code sets `doCommit`. -/
theorem step_attempts_from_events (handler : Db → List WorkItem → Db) (batchTime : Int)
    (p p' : Pipeline) (ev : PipelineEvent) (hstep : p.step handler batchTime ev = some p') :
    ∀ a ∈ p'.attempts, a ∈ p.attempts ∨
      (ev.setsDoCommit = true ∧ a.beginFailed = ev.txnFails) := by
  have hcommit : ∀ (beginFails : Bool) (sel : Selected),
      (sel = .done ∨ ∃ now, sel = .timer now) →
      ∀ a ∈ (p.afterIteration handler batchTime beginFails sel).attempts,
        a ∈ p.attempts ∨ a.beginFailed = beginFails := by
    intro beginFails sel hsel a ha
    obtain ⟨_, _, _, _, _, e6⟩ := afterIteration_commit handler batchTime beginFails p sel hsel
    rcases e6 with ⟨_, hat, _, _⟩ | ⟨_, hat, _, _⟩
    · rw [hat] at ha; exact Or.inl ha
    · rw [hat] at ha
      rcases List.mem_append.mp ha with ha | ha
      · exact Or.inl ha
      · rw [List.mem_singleton.mp ha]; exact Or.inr rfl
  by_cases hc : ev.setsDoCommit = true
  · cases ev with
    | send item => cases hc
    | closeDone => cases hc
    | selectWork now => cases hc
    | selectDone beginFails =>
      simp only [Pipeline.step] at hstep
      split at hstep
      · cases hstep
        intro a ha
        rcases hcommit beginFails .done (Or.inl rfl) a ha with h | h
        · exact Or.inl h
        · exact Or.inr ⟨rfl, h⟩
      · cases hstep
    | selectTimer now beginFails =>
      simp only [Pipeline.step] at hstep
      split at hstep
      · cases hstep
        intro a ha
        rcases hcommit beginFails (.timer now) (Or.inr ⟨now, rfl⟩) a ha with h | h
        · exact Or.inl h
        · exact Or.inr ⟨rfl, h⟩
      · cases hstep
  · have hc' : ev.setsDoCommit = false := by
      cases hv : ev.setsDoCommit with
      | true => exact absurd hv hc
      | false => rfl
    obtain ⟨hat, _, _⟩ := step_no_commit_no_flush handler batchTime p p' ev hstep hc'
    intro a ha
    rw [hat] at ha
    exact Or.inl ha

theorem run_attempts_from_events (handler : Db → List WorkItem → Db) (batchTime : Int)
    (trace : List PipelineEvent) :
    ∀ p p' : Pipeline, Pipeline.run handler batchTime p trace = some p' →
      ∀ a ∈ p'.attempts, a ∈ p.attempts ∨
        ∃ ev ∈ trace, ev.setsDoCommit = true ∧ a.beginFailed = ev.txnFails := by
  induction trace with
  | nil =>
    intro p p' hrun a ha
    simp only [Pipeline.run, Option.some.injEq] at hrun
    rw [← hrun] at ha; exact Or.inl ha
  | cons ev rest ih =>
    intro p p' hrun a ha
    simp only [Pipeline.run] at hrun
    cases hstep : p.step handler batchTime ev with
    | none => rw [hstep] at hrun; cases hrun
    | some p1 =>
      rw [hstep] at hrun
      rcases ih p1 p' hrun a ha with h | ⟨e, he, h⟩
      · rcases step_attempts_from_events handler batchTime p p1 ev hstep a h with h | h
        · exact Or.inl h
        · exact Or.inr ⟨ev, List.mem_cons_self _ _, h⟩
      · exact Or.inr ⟨e, List.mem_cons_of_mem _ he, h⟩

/-- When every transaction started, every batch given to `DbTxn` was given
to the handler. -/
theorem started_eq_flushed_of_no_failure (p : Pipeline)
    (h : ∀ a ∈ p.attempts, a.beginFailed = false) : p.started = p.flushed := by
  unfold Pipeline.started Pipeline.flushed
  rw [List.filter_eq_self.mpr]
  intro a ha
  rw [h a ha]; rfl

/-- An event in which the code sets `doCommit`, on a non-empty accumulated
list: the list is the batch of a flush, and unless the transaction fails to
start the handler is applied to the store with exactly that batch; on an
empty list nothing is flushed. -/
theorem step_commit_effect (handler : Db → List WorkItem → Db) (batchTime : Int)
    (p p' : Pipeline) (ev : PipelineEvent) (hstep : p.step handler batchTime ev = some p')
    (hev : ev.setsDoCommit = true) :
    (p.worker.workItems = [] →
      p'.attempts = p.attempts ∧ p'.handled = p.handled ∧ p'.db = p.db) ∧
    (p.worker.workItems ≠ [] →
      p'.attempts = p.attempts ++ [⟨p.worker.workItems, ev.txnFails⟩] ∧
      p'.handled =
        (if ev.txnFails = true then p.handled else p.handled ++ [p.worker.workItems]) ∧
      p'.db = (if ev.txnFails = true then p.db else handler p.db p.worker.workItems)) := by
  have hcommit : ∀ (beginFails : Bool) (sel : Selected),
      (sel = .done ∨ ∃ now, sel = .timer now) →
      p' = p.afterIteration handler batchTime beginFails sel →
      (p.worker.workItems = [] →
        p'.attempts = p.attempts ∧ p'.handled = p.handled ∧ p'.db = p.db) ∧
      (p.worker.workItems ≠ [] →
        p'.attempts = p.attempts ++ [⟨p.worker.workItems, beginFails⟩] ∧
        p'.handled =
          (if beginFails = true then p.handled else p.handled ++ [p.worker.workItems]) ∧
        p'.db = (if beginFails = true then p.db else handler p.db p.worker.workItems)) := by
    intro beginFails sel hsel hp
    obtain ⟨_, _, _, _, _, e6⟩ := afterIteration_commit handler batchTime beginFails p sel hsel
    rw [hp]
    rcases e6 with ⟨hnil, h⟩ | ⟨hne, h⟩
    · exact ⟨fun _ => h, fun hc => absurd hnil hc⟩
    · exact ⟨fun hc => absurd hc hne, fun _ => h⟩
  cases ev with
  | send item => cases hev
  | closeDone => cases hev
  | selectWork now => cases hev
  | selectDone beginFails =>
    simp only [Pipeline.step] at hstep
    split at hstep
    · exact hcommit beginFails .done (Or.inl rfl) (Option.some.inj hstep).symm
    · cases hstep
  | selectTimer now beginFails =>
    simp only [Pipeline.step] at hstep
    split at hstep
    · exact hcommit beginFails (.timer now) (Or.inr ⟨now, rfl⟩) (Option.some.inj hstep).symm
    · cases hstep

/-- C11 (as amended): in every run of the worker, the batches given to
`DbTxn`, concatenated in the order of the flushes and followed by the
accumulated list, are exactly the intents received, in the order received,
so they form a prefix of them and no intent is in two batches. The batches
given to the handler are exactly the batches of the flushes whose
transaction started, in the order of the flushes, and the store is the
starting store to which the handler was applied with these batches in that
order; the outcome of each flush is the one of an event of the run that
took the timer or `<-done`. So the batches given to the handler,
concatenated, are a sublist of the intents received (each at most once, in
order), and a prefix when no transaction fails to start. An iteration that
takes the timer or `<-done` leaves the accumulated list empty; when the list
was not empty it is the batch of a flush, to which the handler is applied
unless the transaction fails to start. An event of another kind, the
arrival of an intent among them, hands no batch over and leaves the store as
it was. -/
theorem worker_batches_follow_received (handler : Db → List WorkItem → Db)
    (batchTime : Int) (db : Db) (now : Int) (trace : List PipelineEvent) (p : Pipeline)
    (hrun : Pipeline.run handler batchTime (Pipeline.start db now) trace = some p) :
    p.flushed.flatten ++ p.worker.workItems = p.received ∧
    List.IsPrefix p.flushed.flatten p.received ∧
    p.handled = p.started ∧
    p.db = p.handled.foldl handler db ∧
    (∀ a ∈ p.attempts, ∃ ev ∈ trace, ev.setsDoCommit = true ∧ a.beginFailed = ev.txnFails) ∧
    p.handled.Sublist p.flushed ∧
    p.handled.flatten.Sublist p.received ∧
    ((∀ ev ∈ trace, ev.txnFails = false) →
      p.handled = p.flushed ∧ List.IsPrefix p.handled.flatten p.received) ∧
    (∀ (ev : PipelineEvent) (p' : Pipeline), p.step handler batchTime ev = some p' →
      (ev.setsDoCommit = true →
        p'.worker.workItems = [] ∧
        (p.worker.workItems = [] →
          p'.attempts = p.attempts ∧ p'.handled = p.handled ∧ p'.db = p.db) ∧
        (p.worker.workItems ≠ [] →
          p'.attempts = p.attempts ++ [⟨p.worker.workItems, ev.txnFails⟩] ∧
          p'.handled =
            (if ev.txnFails = true then p.handled
              else p.handled ++ [p.worker.workItems]) ∧
          p'.db =
            (if ev.txnFails = true then p.db else handler p.db p.worker.workItems))) ∧
      (ev.setsDoCommit = false →
        p'.attempts = p.attempts ∧ p'.handled = p.handled ∧ p'.db = p.db)) := by
  obtain ⟨h1, h2, _, _, _⟩ := PipelineInv_run handler batchTime trace _ p
    (PipelineInv_start db now) hrun
  have hpre : List.IsPrefix p.flushed.flatten p.received := ⟨p.worker.workItems, h1⟩
  have hsub : p.handled.Sublist p.flushed := by
    rw [h2]; exact started_sublist_flushed p
  have hdb := run_db_is_handler_on_handled handler batchTime db trace _ p rfl hrun
  have hatt : ∀ a ∈ p.attempts,
      ∃ ev ∈ trace, ev.setsDoCommit = true ∧ a.beginFailed = ev.txnFails := by
    intro a ha
    rcases run_attempts_from_events handler batchTime trace _ p hrun a ha with h | h
    · simp [Pipeline.start] at h
    · exact h
  refine ⟨h1, hpre, h2, hdb, hatt, hsub, (sublist_flatten hsub).trans hpre.sublist, ?_, ?_⟩
  · intro hev
    have heq : p.handled = p.flushed := by
      rw [h2]
      apply started_eq_flushed_of_no_failure
      intro a ha
      obtain ⟨ev, hmem, _, hb⟩ := hatt a ha
      rw [hb]; exact hev ev hmem
    exact ⟨heq, by rw [heq]; exact hpre⟩
  · intro ev p' hstep
    refine ⟨fun hc => ⟨step_commit_empties handler batchTime p p' ev hstep hc,
      step_commit_effect handler batchTime p p' ev hstep hc⟩,
      step_no_commit_no_flush handler batchTime p p' ev hstep⟩

/-- C11 as amended, on a run in which the transaction of the first flush
fails to start and the one of the second starts: the handler got the second
batch only and the usage table holds the row of the second intent only. -/
theorem worker_batches_follow_received_witness :
    Pipeline.run sampleHandler mainBatchTime (Pipeline.start Db.empty 0) droppedBatchTrace =
      some (sampleRun droppedBatchTrace) ∧
    (sampleRun droppedBatchTrace).attempts =
      [⟨[sampleUsage 1], true⟩, ⟨[sampleUsage 2], false⟩] ∧
    (sampleRun droppedBatchTrace).handled = [[sampleUsage 2]] ∧
    (sampleRun droppedBatchTrace).db.userUsage = [⟨2, 1, 1, 1⟩] ∧
    ((sampleRun droppedBatchTrace).flushed.flatten ++
        (sampleRun droppedBatchTrace).worker.workItems =
        (sampleRun droppedBatchTrace).received ∧
      List.IsPrefix (sampleRun droppedBatchTrace).flushed.flatten
        (sampleRun droppedBatchTrace).received ∧
      (sampleRun droppedBatchTrace).handled = (sampleRun droppedBatchTrace).started ∧
      (sampleRun droppedBatchTrace).db =
        (sampleRun droppedBatchTrace).handled.foldl sampleHandler Db.empty ∧
      (∀ a ∈ (sampleRun droppedBatchTrace).attempts,
        ∃ ev ∈ droppedBatchTrace, ev.setsDoCommit = true ∧ a.beginFailed = ev.txnFails) ∧
      (sampleRun droppedBatchTrace).handled.Sublist (sampleRun droppedBatchTrace).flushed ∧
      (sampleRun droppedBatchTrace).handled.flatten.Sublist
        (sampleRun droppedBatchTrace).received ∧
      ((∀ ev ∈ droppedBatchTrace, ev.txnFails = false) →
        (sampleRun droppedBatchTrace).handled = (sampleRun droppedBatchTrace).flushed ∧
        List.IsPrefix (sampleRun droppedBatchTrace).handled.flatten
          (sampleRun droppedBatchTrace).received) ∧
      (∀ (ev : PipelineEvent) (p' : Pipeline),
        (sampleRun droppedBatchTrace).step sampleHandler mainBatchTime ev = some p' →
        (ev.setsDoCommit = true →
          p'.worker.workItems = [] ∧
          ((sampleRun droppedBatchTrace).worker.workItems = [] →
            p'.attempts = (sampleRun droppedBatchTrace).attempts ∧
            p'.handled = (sampleRun droppedBatchTrace).handled ∧
            p'.db = (sampleRun droppedBatchTrace).db) ∧
          ((sampleRun droppedBatchTrace).worker.workItems ≠ [] →
            p'.attempts = (sampleRun droppedBatchTrace).attempts ++
              [⟨(sampleRun droppedBatchTrace).worker.workItems, ev.txnFails⟩] ∧
            p'.handled =
              (if ev.txnFails = true then (sampleRun droppedBatchTrace).handled
                else (sampleRun droppedBatchTrace).handled ++
                  [(sampleRun droppedBatchTrace).worker.workItems]) ∧
            p'.db =
              (if ev.txnFails = true then (sampleRun droppedBatchTrace).db
                else sampleHandler (sampleRun droppedBatchTrace).db
                  (sampleRun droppedBatchTrace).worker.workItems))) ∧
        (ev.setsDoCommit = false →
          p'.attempts = (sampleRun droppedBatchTrace).attempts ∧
          p'.handled = (sampleRun droppedBatchTrace).handled ∧
          p'.db = (sampleRun droppedBatchTrace).db))) :=
  ⟨rfl, rfl, rfl, rfl,
    worker_batches_follow_received sampleHandler mainBatchTime Db.empty 0 droppedBatchTrace
      (sampleRun droppedBatchTrace) rfl⟩

/-- C11 (counterexample): an intent is received and the timer fires, but
`BEGIN IMMEDIATE` fails: `DbTxn` returns before calling the handler and the
worker resets the accumulated list; a second intent is then received and
flushed. The handler was given the second intent only, which is not a
prefix of the two intents received. -/
theorem worker_dropped_batch_counterexample :
    Pipeline.run sampleHandler mainBatchTime (Pipeline.start Db.empty 0) droppedBatchTrace =
      some (sampleRun droppedBatchTrace) ∧
    (sampleRun droppedBatchTrace).received = [sampleUsage 1, sampleUsage 2] ∧
    (sampleRun droppedBatchTrace).handled = [[sampleUsage 2]] ∧
    ¬ List.IsPrefix (sampleRun droppedBatchTrace).handled.flatten
        (sampleRun droppedBatchTrace).received := by
  have h1 : (sampleRun droppedBatchTrace).received = [sampleUsage 1, sampleUsage 2] := rfl
  have h2 : (sampleRun droppedBatchTrace).handled = [[sampleUsage 2]] := rfl
  refine ⟨rfl, h1, h2, ?_⟩
  rw [h1, h2]
  rintro ⟨t, ht⟩
  have hhead : sampleUsage 2 = sampleUsage 1 := by
    simp only [List.flatten_cons, List.flatten_nil, List.append_nil, List.singleton_append,
      List.cons.injEq] at ht
    exact ht.1
  exact absurd hhead (by decide)

/-- C12 (as amended): in every run in which the loop of the worker has
ended, which only `<-done` makes it do, the accumulated list is empty and
the batches given to `DbTxn`, concatenated, are exactly the intents the
worker received from the channel, so each of them is in the batch of one
flush. The batches given to the handler are exactly the batches of the
flushes whose transaction started, the outcome being the one of an event of
the run, and the store is the starting store to which the handler was
applied with these batches in order: an intent received reached the handler
exactly when the transaction of its own flush started, and every intent
received did when no transaction failed to start. The intents sent are the
ones received followed by the ones still in the channel. -/
theorem worker_exit_has_flushed_received (handler : Db → List WorkItem → Db)
    (batchTime : Int) (db : Db) (now : Int) (trace : List PipelineEvent) (p : Pipeline)
    (hrun : Pipeline.run handler batchTime (Pipeline.start db now) trace = some p)
    (hdone : p.worker.isDone = true) :
    p.worker.workItems = [] ∧
    p.flushed.flatten = p.received ∧
    p.handled = p.started ∧
    p.db = p.handled.foldl handler db ∧
    (∀ a ∈ p.attempts, ∃ ev ∈ trace, ev.setsDoCommit = true ∧ a.beginFailed = ev.txnFails) ∧
    (∀ a ∈ p.attempts, (a.beginFailed = false → a.batch ∈ p.handled)) ∧
    (∀ batch ∈ p.handled, ∃ a ∈ p.attempts, a.batch = batch ∧ a.beginFailed = false) ∧
    ((∀ ev ∈ trace, ev.txnFails = false) → p.handled.flatten = p.received) ∧
    p.sent = p.received ++ p.work := by
  obtain ⟨h1, h2, h3, _, h5⟩ := PipelineInv_run handler batchTime trace _ p
    (PipelineInv_start db now) hrun
  have hempty := h5 hdone
  have hall : p.flushed.flatten = p.received := by
    rw [hempty, List.append_nil] at h1
    exact h1
  have hdb := run_db_is_handler_on_handled handler batchTime db trace _ p rfl hrun
  have hatt : ∀ a ∈ p.attempts,
      ∃ ev ∈ trace, ev.setsDoCommit = true ∧ a.beginFailed = ev.txnFails := by
    intro a ha
    rcases run_attempts_from_events handler batchTime trace _ p hrun a ha with h | h
    · simp [Pipeline.start] at h
    · exact h
  refine ⟨hempty, hall, h2, hdb, hatt, ?_, ?_, ?_, h3⟩
  · intro a ha hb
    rw [h2]
    exact List.mem_map.mpr ⟨a, List.mem_filter.mpr ⟨ha, by rw [hb]; rfl⟩, rfl⟩
  · intro batch hbatch
    rw [h2] at hbatch
    obtain ⟨a, ha, rfl⟩ := List.mem_map.mp hbatch
    obtain ⟨hmem, hflag⟩ := List.mem_filter.mp ha
    refine ⟨a, hmem, rfl, ?_⟩
    cases hb : a.beginFailed with
    | false => rfl
    | true => rw [hb] at hflag; cases hflag
  · intro hev
    have heq : p.handled = p.flushed := by
      rw [h2]
      apply started_eq_flushed_of_no_failure
      intro a ha
      obtain ⟨ev, hmem, _, hb⟩ := hatt a ha
      rw [hb]; exact hev ev hmem
    rw [heq]; exact hall

/-- C12 as amended, on a run that ends on `<-done` after a first flush whose
transaction failed to start: both intents were received and flushed, the
handler got the second one only, and the usage table holds its row only. -/
theorem worker_exit_has_flushed_received_witness :
    Pipeline.run sampleHandler mainBatchTime (Pipeline.start Db.empty 0)
        failedThenShutdownTrace = some (sampleRun failedThenShutdownTrace) ∧
    (sampleRun failedThenShutdownTrace).worker.isDone = true ∧
    (sampleRun failedThenShutdownTrace).received = [sampleUsage 1, sampleUsage 2] ∧
    (sampleRun failedThenShutdownTrace).attempts =
      [⟨[sampleUsage 1], true⟩, ⟨[sampleUsage 2], false⟩] ∧
    (sampleRun failedThenShutdownTrace).handled = [[sampleUsage 2]] ∧
    (sampleRun failedThenShutdownTrace).db.userUsage = [⟨2, 1, 1, 1⟩] ∧
    ((sampleRun failedThenShutdownTrace).worker.workItems = [] ∧
      (sampleRun failedThenShutdownTrace).flushed.flatten =
        (sampleRun failedThenShutdownTrace).received ∧
      (sampleRun failedThenShutdownTrace).handled =
        (sampleRun failedThenShutdownTrace).started ∧
      (sampleRun failedThenShutdownTrace).db =
        (sampleRun failedThenShutdownTrace).handled.foldl sampleHandler Db.empty ∧
      (∀ a ∈ (sampleRun failedThenShutdownTrace).attempts,
        ∃ ev ∈ failedThenShutdownTrace,
          ev.setsDoCommit = true ∧ a.beginFailed = ev.txnFails) ∧
      (∀ a ∈ (sampleRun failedThenShutdownTrace).attempts,
        (a.beginFailed = false → a.batch ∈ (sampleRun failedThenShutdownTrace).handled)) ∧
      (∀ batch ∈ (sampleRun failedThenShutdownTrace).handled,
        ∃ a ∈ (sampleRun failedThenShutdownTrace).attempts,
          a.batch = batch ∧ a.beginFailed = false) ∧
      ((∀ ev ∈ failedThenShutdownTrace, ev.txnFails = false) →
        (sampleRun failedThenShutdownTrace).handled.flatten =
          (sampleRun failedThenShutdownTrace).received) ∧
      (sampleRun failedThenShutdownTrace).sent =
        (sampleRun failedThenShutdownTrace).received ++
          (sampleRun failedThenShutdownTrace).work) :=
  ⟨rfl, rfl, rfl, rfl, rfl, rfl,
    worker_exit_has_flushed_received sampleHandler mainBatchTime Db.empty 0
      failedThenShutdownTrace (sampleRun failedThenShutdownTrace) rfl rfl⟩

/-- C12 (counterexample): two intents are sent, the worker receives the
first, `main` closes `done` and the next `select` takes `<-done`: the worker
flushes the first intent and leaves its loop while the second intent, sent
before the exit, is still in the channel and was given to no flush. -/
theorem worker_exit_leaves_queue_counterexample :
    Pipeline.run sampleHandler mainBatchTime (Pipeline.start Db.empty 0) shutdownTrace =
      some (sampleRun shutdownTrace) ∧
    (sampleRun shutdownTrace).worker.isDone = true ∧
    (sampleRun shutdownTrace).sent = [sampleUsage 1, sampleUsage 2] ∧
    (sampleRun shutdownTrace).work = [sampleUsage 2] ∧
    (sampleRun shutdownTrace).flushed = [[sampleUsage 1]] ∧
    (sampleRun shutdownTrace).handled = [[sampleUsage 1]] ∧
    sampleUsage 2 ∉ (sampleRun shutdownTrace).handled.flatten := by
  have h : (sampleRun shutdownTrace).handled = [[sampleUsage 1]] := rfl
  refine ⟨rfl, rfl, rfl, rfl, rfl, h, ?_⟩
  rw [h]
  decide

/-! ## The token of `GenToken` -/

theorem encodeChar_mem : ∀ v, v < 32 → encodeChar v ∈ base32Alphabet := by
  decide

theorem encodeChar_inj : ∀ v, v < 32 → ∀ w, w < 32 → encodeChar v = encodeChar w → v = w := by
  decide

theorem quantum_lt (s0 s1 s2 s3 s4 : Byte) : ∀ v ∈ quantum s0 s1 s2 s3 s4, v < 32 := by
  intro v hv
  have h0 := s0.isLt
  have h1 := s1.isLt
  have h2 := s2.isLt
  have h3 := s3.isLt
  have h4 := s4.isLt
  simp only [quantum, List.mem_cons, List.mem_singleton, List.not_mem_nil, or_false] at hv
  rcases hv with rfl | rfl | rfl | rfl | rfl | rfl | rfl | rfl <;> omega

theorem mem_map_encodeChar (vs : List Nat) (h : ∀ v ∈ vs, v < 32) :
    ∀ c ∈ vs.map encodeChar, c ∈ base32Alphabet := by
  intro c hc
  obtain ⟨v, hv, rfl⟩ := List.mem_map.mp hc
  exact encodeChar_mem v (h v hv)

/-- A group of five bytes is determined by its eight characters. -/
theorem quantum_inj (s0 s1 s2 s3 s4 t0 t1 t2 t3 t4 : Byte)
    (h : (quantum s0 s1 s2 s3 s4).map encodeChar = (quantum t0 t1 t2 t3 t4).map encodeChar) :
    s0 = t0 ∧ s1 = t1 ∧ s2 = t2 ∧ s3 = t3 ∧ s4 = t4 := by
  have hs := quantum_lt s0 s1 s2 s3 s4
  have ht := quantum_lt t0 t1 t2 t3 t4
  simp only [quantum, List.mem_cons, List.mem_singleton, List.not_mem_nil, or_false,
    forall_eq_or_imp, forall_eq] at hs ht
  simp only [quantum, List.map_cons, List.map_nil, List.cons.injEq, and_true] at h
  obtain ⟨e0, e1, e2, e3, e4, e5, e6, e7⟩ := h
  have v0 := encodeChar_inj _ hs.1 _ ht.1 e0
  have v1 := encodeChar_inj _ hs.2.1 _ ht.2.1 e1
  have v2 := encodeChar_inj _ hs.2.2.1 _ ht.2.2.1 e2
  have v3 := encodeChar_inj _ hs.2.2.2.1 _ ht.2.2.2.1 e3
  have v4 := encodeChar_inj _ hs.2.2.2.2.1 _ ht.2.2.2.2.1 e4
  have v5 := encodeChar_inj _ hs.2.2.2.2.2.1 _ ht.2.2.2.2.2.1 e5
  have v6 := encodeChar_inj _ hs.2.2.2.2.2.2.1 _ ht.2.2.2.2.2.2.1 e6
  have v7 := encodeChar_inj _ hs.2.2.2.2.2.2.2 _ ht.2.2.2.2.2.2.2 e7
  have h0 := s0.isLt
  have h1 := s1.isLt
  have h2 := s2.isLt
  have h3 := s3.isLt
  have h4 := s4.isLt
  have k0 := t0.isLt
  have k1 := t1.isLt
  have k2 := t2.isLt
  have k3 := t3.isLt
  have k4 := t4.isLt
  refine ⟨Fin.ext ?_, Fin.ext ?_, Fin.ext ?_, Fin.ext ?_, Fin.ext ?_⟩ <;> omega

/-- A last group of one byte is determined by its two characters. -/
theorem quantum_tail_inj (s0 t0 : Byte)
    (h : ((quantum s0 0 0 0 0).take 2).map encodeChar =
      ((quantum t0 0 0 0 0).take 2).map encodeChar) : s0 = t0 := by
  have hs := quantum_lt s0 0 0 0 0
  have ht := quantum_lt t0 0 0 0 0
  simp only [quantum, List.mem_cons, List.mem_singleton, List.not_mem_nil, or_false,
    forall_eq_or_imp, forall_eq] at hs ht
  simp only [quantum, List.take_succ_cons, List.take_zero, List.map_cons, List.map_nil,
    List.cons.injEq, and_true] at h
  have v0 := encodeChar_inj _ hs.1 _ ht.1 h.1
  have v1 := encodeChar_inj _ hs.2.1 _ ht.2.1 h.2
  have h0 := s0.isLt
  have k0 := t0.isLt
  have z : ((0 : Byte) : Nat) = 0 := rfl
  rw [z] at v1
  exact Fin.ext (by omega)

theorem exists_sixteen (b : List Byte) (hb : b.length = 16) :
    ∃ b0 b1 b2 b3 b4 b5 b6 b7 b8 b9 b10 b11 b12 b13 b14 b15 : Byte,
      b = [b0, b1, b2, b3, b4, b5, b6, b7, b8, b9, b10, b11, b12, b13, b14, b15] := by
  rcases b with _ | ⟨b0, b⟩
  · simp at hb
  rcases b with _ | ⟨b1, b⟩
  · simp at hb
  rcases b with _ | ⟨b2, b⟩
  · simp at hb
  rcases b with _ | ⟨b3, b⟩
  · simp at hb
  rcases b with _ | ⟨b4, b⟩
  · simp at hb
  rcases b with _ | ⟨b5, b⟩
  · simp at hb
  rcases b with _ | ⟨b6, b⟩
  · simp at hb
  rcases b with _ | ⟨b7, b⟩
  · simp at hb
  rcases b with _ | ⟨b8, b⟩
  · simp at hb
  rcases b with _ | ⟨b9, b⟩
  · simp at hb
  rcases b with _ | ⟨b10, b⟩
  · simp at hb
  rcases b with _ | ⟨b11, b⟩
  · simp at hb
  rcases b with _ | ⟨b12, b⟩
  · simp at hb
  rcases b with _ | ⟨b13, b⟩
  · simp at hb
  rcases b with _ | ⟨b14, b⟩
  · simp at hb
  rcases b with _ | ⟨b15, b⟩
  · simp at hb
  rcases b with _ | ⟨b16, b⟩
  · exact ⟨b0, b1, b2, b3, b4, b5, b6, b7, b8, b9, b10, b11, b12, b13, b14, b15, rfl⟩
  · simp at hb

/-- The encoding of sixteen bytes: three groups of eight characters and a
last group of two. -/
theorem base32Encode_sixteen (b0 b1 b2 b3 b4 b5 b6 b7 b8 b9 b10 b11 b12 b13 b14 b15 : Byte) :
    base32Encode [b0, b1, b2, b3, b4, b5, b6, b7, b8, b9, b10, b11, b12, b13, b14, b15] =
      (quantum b0 b1 b2 b3 b4).map encodeChar ++
        ((quantum b5 b6 b7 b8 b9).map encodeChar ++
          ((quantum b10 b11 b12 b13 b14).map encodeChar ++
            ((quantum b15 0 0 0 0).take 2).map encodeChar)) := rfl

theorem length_base32Encode_sixteen (b : List Byte) (hb : b.length = 16) :
    (base32Encode b).length = 26 := by
  obtain ⟨b0, b1, b2, b3, b4, b5, b6, b7, b8, b9, b10, b11, b12, b13, b14, b15, rfl⟩ :=
    exists_sixteen b hb
  rfl

theorem mem_base32Encode_sixteen (b : List Byte) (hb : b.length = 16) :
    ∀ c ∈ base32Encode b, c ∈ base32Alphabet := by
  obtain ⟨b0, b1, b2, b3, b4, b5, b6, b7, b8, b9, b10, b11, b12, b13, b14, b15, rfl⟩ :=
    exists_sixteen b hb
  intro c hc
  rw [base32Encode_sixteen] at hc
  simp only [List.mem_append] at hc
  rcases hc with hc | hc | hc | hc
  · exact mem_map_encodeChar _ (quantum_lt _ _ _ _ _) c hc
  · exact mem_map_encodeChar _ (quantum_lt _ _ _ _ _) c hc
  · exact mem_map_encodeChar _ (quantum_lt _ _ _ _ _) c hc
  · exact mem_map_encodeChar _
      (fun v hv => quantum_lt b15 0 0 0 0 v (List.mem_of_mem_take hv)) c hc

theorem base32Encode_sixteen_inj (b b' : List Byte) (hb : b.length = 16)
    (hb' : b'.length = 16) (h : base32Encode b = base32Encode b') : b = b' := by
  obtain ⟨b0, b1, b2, b3, b4, b5, b6, b7, b8, b9, b10, b11, b12, b13, b14, b15, rfl⟩ :=
    exists_sixteen b hb
  obtain ⟨c0, c1, c2, c3, c4, c5, c6, c7, c8, c9, c10, c11, c12, c13, c14, c15, rfl⟩ :=
    exists_sixteen b' hb'
  rw [base32Encode_sixteen, base32Encode_sixteen] at h
  obtain ⟨h1, h⟩ := List.append_inj h rfl
  obtain ⟨h2, h⟩ := List.append_inj h rfl
  obtain ⟨h3, h4⟩ := List.append_inj h rfl
  obtain ⟨rfl, rfl, rfl, rfl, rfl⟩ := quantum_inj _ _ _ _ _ _ _ _ _ _ h1
  obtain ⟨rfl, rfl, rfl, rfl, rfl⟩ := quantum_inj _ _ _ _ _ _ _ _ _ _ h2
  obtain ⟨rfl, rfl, rfl, rfl, rfl⟩ := quantum_inj _ _ _ _ _ _ _ _ _ _ h3
  obtain rfl := quantum_tail_inj _ _ h4
  rfl

theorem authResultFunc_cause (now : Int) (row : AuthRow) (e : HttpErrWrapper) (n : Nat)
    (h : authResultFunc now row = some e) : e.err ≠ .tokenLengthOutOfBounds n := by
  unfold authResultFunc at h
  split at h
  · split at h
    · cases h; intro hc; cases hc
    · split at h
      · cases h; intro hc; cases hc
      · cases h
  · split at h
    · cases h; intro hc; cases hc
    · cases h

/-- A token that passes the length guard never gets the error of the
length guard from `AuthUser`. -/
theorem AuthUser_not_length_error (db : Db) (now : Int) (token : GoString) (n : Nat)
    (hguard : ¬ (token.length > 40 ∨ token.length = 0)) :
    (AuthUser db now token).2 ≠
      some (HttpErrWrap StatusUnauthorized "Invalid Token" (.tokenLengthOutOfBounds n)) := by
  unfold AuthUser
  rw [if_neg hguard]
  cases hsel : selectAuthRow db token with
  | none => intro hc; cases hc
  | some row =>
    dsimp only
    cases hres : authResultFunc now row with
    | none => intro hc; cases hc
    | some e =>
      dsimp only
      intro hc
      have he : e = HttpErrWrap StatusUnauthorized "Invalid Token"
          (.tokenLengthOutOfBounds n) := Option.some.inj hc
      exact authResultFunc_cause now row e n hres (by rw [he]; rfl)

/-- C13: for every 16 bytes, the token of `GenToken` is "dryci-" followed
by 26 characters of the alphabet a-z2-7 (the unpadded length of 16 bytes),
so it has length 32, passes the length guard of `AuthUser` and never gets
its error; and two lists of 16 bytes with the same token are equal. -/
theorem GenToken_shape (b : List Byte) (hb : b.length = 16) :
    (∃ payload : GoString, GenToken b = goString "dryci-" ++ payload ∧
      payload.length = 26 ∧ ∀ c ∈ payload, c ∈ goString "abcdefghijklmnopqrstuvwxyz234567") ∧
    (GenToken b).length = 32 ∧
    ¬ ((GenToken b).length > 40 ∨ (GenToken b).length = 0) ∧
    (∀ (db : Db) (now : Int) (n : Nat), (AuthUser db now (GenToken b)).2 ≠
      some (HttpErrWrap StatusUnauthorized "Invalid Token" (.tokenLengthOutOfBounds n))) ∧
    (∀ b' : List Byte, b'.length = 16 → GenToken b = GenToken b' → b = b') := by
  have hlen : (GenToken b).length = 32 := by
    unfold GenToken
    rw [List.length_append, length_base32Encode_sixteen b hb]
    rfl
  have hguard : ¬ ((GenToken b).length > 40 ∨ (GenToken b).length = 0) := by
    rw [hlen]; decide
  refine ⟨⟨base32Encode b, rfl, length_base32Encode_sixteen b hb,
    mem_base32Encode_sixteen b hb⟩, hlen, hguard, ?_, ?_⟩
  · intro db now n
    exact AuthUser_not_length_error db now (GenToken b) n hguard
  · intro b' hb' h
    unfold GenToken at h
    exact base32Encode_sixteen_inj b b' hb hb' (List.append_cancel_left h)

/-- C13 on the 16 bytes 0 to 15: the token is
"dryci-aaaqeayeaudaocajbifqydiob4". -/
theorem GenToken_shape_witness :
    ((List.range 16).map (Fin.ofNat : Nat → Byte)).length = 16 ∧
    GenToken ((List.range 16).map Fin.ofNat) = goString "dryci-aaaqeayeaudaocajbifqydiob4" ∧
    ((∃ payload : GoString,
        GenToken ((List.range 16).map Fin.ofNat) = goString "dryci-" ++ payload ∧
        payload.length = 26 ∧
        ∀ c ∈ payload, c ∈ goString "abcdefghijklmnopqrstuvwxyz234567") ∧
      (GenToken ((List.range 16).map Fin.ofNat)).length = 32 ∧
      ¬ ((GenToken ((List.range 16).map Fin.ofNat)).length > 40 ∨
        (GenToken ((List.range 16).map Fin.ofNat)).length = 0) ∧
      (∀ (db : Db) (now : Int) (n : Nat),
        (AuthUser db now (GenToken ((List.range 16).map Fin.ofNat))).2 ≠
          some (HttpErrWrap StatusUnauthorized "Invalid Token"
            (.tokenLengthOutOfBounds n))) ∧
      (∀ b' : List Byte, b'.length = 16 →
        GenToken ((List.range 16).map Fin.ofNat) = GenToken b' →
        (List.range 16).map Fin.ofNat = b')) :=
  ⟨rfl, rfl, GenToken_shape ((List.range 16).map Fin.ofNat) rfl⟩

end Dryci
